import Mathlib

/-!
Verification development for the `ib_fundamental` XML parser
(`ib_fundamental/xml_parser.py`): a shallow embedding of the extraction
engine over IBKR company-fundamental XML documents, together with theorems
about its filtering, coercion, error-handling, and memoization behaviour.

Python failure modes are abstracted into the specification's error kinds:
an absent required container or a failed singleton destructuring surfaces
as `missingSection`; an absent required attribute (KeyError) or an absent
required child node (IndexError) surfaces as `missingField`; a failed
date/number coercion (ValueError/TypeError) surfaces as `formatError`.
-/

namespace IBFund

/-- Error kinds of the extraction engine, following the specification's
classification of the underlying Python exceptions. -/
inductive PError where
  | missingSection
  | missingField
  | formatError
deriving DecidableEq, Repr

instance {ε α : Type} [DecidableEq ε] [DecidableEq α] :
    DecidableEq (Except ε α) := fun x y =>
  match x, y with
  | .ok a, .ok b =>
    if h : a = b then isTrue (h ▸ rfl)
    else isFalse (fun hh => h (Except.ok.inj hh))
  | .error e, .error f =>
    if h : e = f then isTrue (h ▸ rfl)
    else isFalse (fun hh => h (Except.error.inj hh))
  | .ok _, .error _ => isFalse (fun hh => Except.noConfusion hh)
  | .error _, .ok _ => isFalse (fun hh => Except.noConfusion hh)

/-- A calendar date (model of `datetime.datetime` restricted to the
date components that the documents carry). -/
structure Date where
  year : Nat
  month : Nat
  day : Nat
deriving DecidableEq, Repr

def isLeap (y : Nat) : Bool :=
  (y % 4 == 0 && y % 100 != 0) || (y % 400 == 0)

def daysInMonth (y m : Nat) : Nat :=
  if m == 2 then (if isLeap y then 29 else 28)
  else if m == 4 || m == 6 || m == 9 || m == 11 then 30
  else 31

def digit? (c : Char) : Option Nat :=
  if c.isDigit then some (c.toNat - 48) else none

/-- Model of Python `datetime.fromisoformat` on the date-only ISO-8601
tokens (`YYYY-MM-DD`) that these documents carry: accepts exactly a
ten-character token with a valid calendar date, rejects everything else
(in particular the empty token and the sentinel `"0"`). -/
def fromisoformatCore (s : String) : Option Date := do
  match s.data with
  | [y1, y2, y3, y4, h1, mo1, mo2, h2, d1, d2] =>
    if h1 = '-' ∧ h2 = '-' then do
      let a ← digit? y1
      let b ← digit? y2
      let c ← digit? y3
      let d ← digit? y4
      let m1 ← digit? mo1
      let m2 ← digit? mo2
      let e1 ← digit? d1
      let e2 ← digit? d2
      let y := ((a * 10 + b) * 10 + c) * 10 + d
      let mo := m1 * 10 + m2
      let dy := e1 * 10 + e2
      if 1 ≤ mo ∧ mo ≤ 12 ∧ 1 ≤ dy ∧ dy ≤ daysInMonth y mo then
        some ⟨y, mo, dy⟩
      else none
    else none
  | _ => none

/-- The `fromisoformat` wrapper as used by the parser: a failed parse is a
`formatError` (Python `ValueError`). -/
def fromisoformat (s : String) : Except PError Date :=
  match fromisoformatCore s with
  | some d => Except.ok d
  | none => Except.error PError.formatError

/-- Value of a nonempty all-digit run. -/
def decDigits? (cs : List Char) : Option Nat :=
  if cs.isEmpty then none
  else cs.foldlM (fun a c => (digit? c).map (fun d => a * 10 + d)) 0

/-- Whitespace trimming on a character list (the behaviour of Python's
numeric constructors on surrounding whitespace). -/
def trimChars (cs : List Char) : List Char :=
  ((cs.dropWhile Char.isWhitespace).reverse.dropWhile Char.isWhitespace).reverse

/-- Lower-casing of an ASCII identifier, Python `str.lower()` on the
field names these documents carry. -/
def lowerStr (s : String) : String :=
  String.mk (s.data.map Char.toLower)

/-- An exact decimal number, the value carried by a successful Python
`float(str)` conversion on the decimal tokens these documents hold:
the denoted value is `(-1)^neg * mant / 10^scale * 10^exp`. -/
structure PyFloat where
  neg : Bool
  mant : Nat
  scale : Nat
  exp : Int
deriving DecidableEq, Repr

/-- Model of Python `float(str)` on plain decimal tokens as they appear in
these documents: optional sign, integer and/or fractional digit runs, and
an optional decimal exponent; the value is kept exact. -/
def pyFloatCore (s : String) : Option PyFloat :=
  let cs : List Char := trimChars s.data
  let (neg, cs1) :=
    match cs with
    | '-' :: r => (true, r)
    | '+' :: r => (false, r)
    | r => (false, r)
  let (ipart, cs2) := cs1.span (fun c : Char => c.isDigit)
  let (fpart, cs3) :=
    match cs2 with
    | '.' :: r => r.span (fun c : Char => c.isDigit)
    | _ => ([], cs2)
  if ipart.isEmpty ∧ fpart.isEmpty then none
  else
    let mant : Nat :=
      (decDigits? ipart).getD 0 * 10 ^ fpart.length + (decDigits? fpart).getD 0
    match cs3 with
    | [] => some ⟨neg, mant, fpart.length, 0⟩
    | 'e' :: r | 'E' :: r =>
      let (eneg, r1) :=
        match r with
        | '-' :: r2 => (true, r2)
        | '+' :: r2 => (false, r2)
        | r2 => (false, r2)
      let (edigs, r2) := r1.span (fun c : Char => c.isDigit)
      if edigs.isEmpty ∨ ¬ r2.isEmpty then none
      else
        let ex : Int := (decDigits? edigs).getD 0
        some ⟨neg, mant, fpart.length, if eneg then -ex else ex⟩
    | _ => none

/-- Python `float` applied to an element's text (Python `Element.text` is
`Optional[str]`): a missing or unparsable text is a `formatError`
(Python `TypeError`/`ValueError`). -/
def pyFloatText (t : Option String) : Except PError PyFloat :=
  match t with
  | none => Except.error PError.formatError
  | some s =>
    match pyFloatCore s with
    | some q => Except.ok q
    | none => Except.error PError.formatError

/-- Model of Python `int(str)`: optional sign and a nonempty digit run. -/
def pyIntCore (s : String) : Option Int :=
  let cs := trimChars s.data
  match cs with
  | '-' :: r => (decDigits? r).map (fun n => -(n : Int))
  | '+' :: r => (decDigits? r).map (fun n => (n : Int))
  | r => (decDigits? r).map (fun n => (n : Int))

/-- Python `int` applied to an element's text. -/
def pyIntText (t : Option String) : Except PError Int :=
  match t with
  | none => Except.error PError.formatError
  | some s =>
    match pyIntCore s with
    | some n => Except.ok n
    | none => Except.error PError.formatError

/-- An XML element: tag, attribute list (a Python dict in insertion
order, keys unique), optional text, and child elements in document
order. -/
inductive Element : Type where
  | mk : String → List (String × String) → Option String → List Element → Element

mutual
def Element.decEq : (a b : Element) → Decidable (a = b)
  | .mk t1 a1 x1 c1, .mk t2 a2 x2 c2 =>
    if ht : t1 = t2 then
      if ha : a1 = a2 then
        if hx : x1 = x2 then
          match elementListDecEq c1 c2 with
          | isTrue hc => isTrue (by rw [ht, ha, hx, hc])
          | isFalse hc => isFalse (fun h => hc (by cases h; rfl))
        else isFalse (fun h => hx (by cases h; rfl))
      else isFalse (fun h => ha (by cases h; rfl))
    else isFalse (fun h => ht (by cases h; rfl))

def elementListDecEq : (a b : List Element) → Decidable (a = b)
  | [], [] => isTrue rfl
  | [], _ :: _ => isFalse (by simp)
  | _ :: _, [] => isFalse (by simp)
  | x :: xs, y :: ys =>
    match Element.decEq x y, elementListDecEq xs ys with
    | isTrue h1, isTrue h2 => isTrue (by rw [h1, h2])
    | isFalse h1, _ => isFalse (fun h => h1 (by cases h; rfl))
    | _, isFalse h2 => isFalse (fun h => h2 (by cases h; rfl))
end

instance : DecidableEq Element := Element.decEq

def Element.tag : Element → String
  | .mk t _ _ _ => t

def Element.attrs : Element → List (String × String)
  | .mk _ a _ _ => a

def Element.text : Element → Option String
  | .mk _ _ tx _ => tx

def Element.children : Element → List Element
  | .mk _ _ _ cs => cs

/-- Attribute lookup, `e.attrib.get(name)` style: first matching key. -/
def lookupAttr (e : Element) (name : String) : Option String :=
  e.attrs.lookup name

/-- Model of `e.attrib[name]`: a missing required attribute is a `missingField`
(Python `KeyError`). -/
def getAttrE (e : Element) (name : String) : Except PError String :=
  match lookupAttr e name with
  | some v => Except.ok v
  | none => Except.error PError.missingField

/-- Model of `e.findall("./Tag")`: the direct children with the given tag, in
document order. -/
def findChildren (e : Element) (t : String) : List Element :=
  e.children.filter (fun c => c.tag = t)

/-- Model of `e.find("./Tag")`: the first direct child with the given tag. -/
def findChild (e : Element) (t : String) : Option Element :=
  (findChildren e t).head?

mutual
/-- Model of `e.iter(tag)`: this element and all its descendants with the given
tag, in document (preorder) order. -/
def Element.iterTag : Element → String → List Element
  | .mk t a tx cs, tg =>
    (if t = tg then [Element.mk t a tx cs] else []) ++ iterTagList cs tg

def iterTagList : List Element → String → List Element
  | [], _ => []
  | c :: cs, tg => c.iterTag tg ++ iterTagList cs tg
end

mutual
/-- All proper descendants of an element, in document (preorder) order. -/
def Element.descendants : Element → List Element
  | .mk _ _ _ cs => descendantsList cs

def descendantsList : List Element → List Element
  | [] => []
  | c :: cs => c :: c.descendants ++ descendantsList cs
end

/-- Model of `root.findall(".//A/B")`: the `B` children of every `A` descendant,
in document order. -/
def findallDesc2 (root : Element) (a b : String) : List Element :=
  (root.descendants.filter (fun e => e.tag = a)).flatMap (fun e => findChildren e b)

/-- Model of `root.findall(".//A/B/C")`: the `C` grandchildren along `A`-then-`B`
paths, for `A` at any depth. -/
def findallDesc3 (root : Element) (a b c : String) : List Element :=
  (root.descendants.filter (fun e => e.tag = a)).flatMap
    (fun e => (findChildren e b).flatMap (fun e2 => findChildren e2 c))

/-- Python dict assignment `d[k] = v` on an insertion-ordered association
list: replaces the value at an existing key in place, else appends. -/
def updateAssoc {α : Type} (d : List (String × α)) (k : String) (v : α) :
    List (String × α) :=
  match d with
  | [] => [(k, v)]
  | (k0, v0) :: rest =>
    if k0 = k then (k0, v) :: rest else (k0, v0) :: updateAssoc rest k v

/-- A dynamically typed Python value as stored in the ownership-row
dictionary: a parsed date, a parsed number, a string, or `None`. -/
inductive DVal where
  | vdate : Date → DVal
  | vnum : PyFloat → DVal
  | vstr : String → DVal
  | vnone : DVal
deriving DecidableEq, Repr

/-- An element's optional text stored as a Python value. -/
def textVal (t : Option String) : DVal :=
  match t with
  | some s => DVal.vstr s
  | none => DVal.vnone

structure OwnershipCompany where
  isin : Option String
  float_shares : Int
  as_of_date : Option Date
deriving DecidableEq, Repr

/-- One beneficial-owner row: the keyword-argument dictionary built by the
parser (`owner_id`, optionally `as_of_date`, and one entry per named
child), in insertion order. -/
structure OwnershipDetails where
  fields : List (String × DVal)
deriving DecidableEq, Repr

structure OwnershipReport where
  company : OwnershipCompany
  ownership_details : List OwnershipDetails
deriving DecidableEq, Repr

structure Dividend where
  type : String
  ex_date : Option Date
  record_date : Option Date
  pay_date : Option Date
  declaration_date : Option Date
  currency : String
  value : Option PyFloat
deriving DecidableEq, Repr

structure DividendPerShare where
  as_of_date : Date
  report_type : String
  period : String
  currency : String
  value : PyFloat
deriving DecidableEq, Repr

structure Revenue where
  as_of_date : Date
  report_type : String
  period : String
  currency : String
  revenue : PyFloat
deriving DecidableEq, Repr

structure EarningsPerShare where
  as_of_date : Date
  report_type : String
  period : String
  currency : String
  eps : PyFloat
deriving DecidableEq, Repr

/-- Analyst-forecast record: normalized field name to float value. -/
structure AnalystForecast where
  fields : List (String × PyFloat)
deriving DecidableEq, Repr

/-- A ratio-snapshot value: a date or a number. -/
inductive RVal where
  | vdate : Date → RVal
  | vnum : PyFloat → RVal
deriving DecidableEq, Repr

structure RatioSnapshot where
  fields : List (String × RVal)
deriving DecidableEq, Repr

structure ForwardYear where
  type : String
  item : String
  unit : String
  period_type : String
  fyear : Int
  end_month : Int
  end_cal_year : Int
  value : PyFloat
  est_type : Option String
  updated : Option Date
deriving DecidableEq, Repr

/-- The document bundle (`XMLReport`): the four raw trees the extraction
engine navigates, materialized and immutable. -/
structure XMLReport where
  ownership : Element
  fin_summary : Element
  snapshot : Element
  resc : Element
deriving DecidableEq

/-- Modelled from the spec: the repository's `utils.camel_to_snake`
(field-name normalization) is not among the provided source files; per
the specification it "converts mixed/camel-case identifiers to a
normalized lower separator-delimited form". This model inserts an
underscore before each uppercase letter that does not start the
identifier and lower-cases every letter. -/
def camelToSnakeChars : List Char → Bool → List Char
  | [], _ => []
  | c :: cs, first =>
    if c.isUpper then
      (if first then [c.toLower] else ['_', c.toLower]) ++ camelToSnakeChars cs false
    else c :: camelToSnakeChars cs false

def camel_to_snake (s : String) : String :=
  String.mk (camelToSnakeChars s.data true)

/-- Python single-element tuple unpacking `(x,) = xs`: fails unless the
list has exactly one element; per the specification this structural
failure is a `missingSection`. -/
def unpackSingleton (xs : List Element) : Except PError Element :=
  match xs with
  | [x] => Except.ok x
  | _ => Except.error PError.missingSection

/-- Python `int` applied to an attribute string. -/
def pyIntStr (s : String) : Except PError Int :=
  match pyIntCore s with
  | some n => Except.ok n
  | none => Except.error PError.formatError

/-- Left-to-right effectful map over `Except`, the evaluation order of a
Python list comprehension whose element expression may raise. -/
def mapME {α β : Type} (f : α → Except PError β) : List α → Except PError (List β)
  | [] => Except.ok []
  | x :: xs => do
    let y ← f x
    let ys ← mapME f xs
    pure (y :: ys)

/-- The value stored for a named owner-row child:
`float(j.text) if j.tag == "quantity" else j.text`. -/
def childVal (j : Element) : Except PError DVal :=
  if j.tag = "quantity" then do
    let q ← pyFloatText j.text
    pure (DVal.vnum q)
  else pure (textVal j.text)

/-- One step of the owner-row loop body: set `as_of_date` from the first
child carrying any attribute (reading its required `asofDate`), then
store the child's own field (`quantity` as a float, any other tag as
text). -/
def ownStep (d : List (String × DVal)) (j : Element) :
    Except PError (List (String × DVal)) := do
  let d1 ←
    if (d.lookup "as_of_date") = none ∧ ¬ j.attrs.isEmpty then do
      let s ← getAttrE j "asofDate"
      let dt ← fromisoformat s
      pure (updateAssoc d "as_of_date" (DVal.vdate dt))
    else pure d
  let v ← childVal j
  pure (updateAssoc d1 j.tag v)

def processOwnerChildren :
    List (String × DVal) → List Element → Except PError (List (String × DVal))
  | d, [] => Except.ok d
  | d, j :: js => do
    let d1 ← ownStep d j
    processOwnerChildren d1 js

/-- The per-owner body of `get_ownership_report`'s loop. -/
def processOwner (i : Element) : Except PError OwnershipDetails := do
  let oid ← getAttrE i "ownerId"
  let d ← processOwnerChildren [("owner_id", DVal.vstr oid)] i.children
  pure ⟨d⟩

/-- The company-level date expression of `get_ownership_report`:
`fromisoformat(attr) if attr != "0" else None`. -/
def companyAsOfDate (s : String) : Except PError (Option Date) :=
  if s ≠ "0" then do
    let d ← fromisoformat s
    pure (some d)
  else pure (none : Option Date)

/-- Embedding of `XMLParser.get_ownership_report` (the uncached extraction body). -/
def get_ownership_report (rep : XMLReport) : Except PError OwnershipReport := do
  let fs := rep.ownership
  let isin ← unpackSingleton (findChildren fs "ISIN")
  let fa ← unpackSingleton (findChildren fs "floatShares")
  let shares ← pyIntText fa.text
  let s ← getAttrE fa "asofDate"
  let asof ← companyAsOfDate s
  let company : OwnershipCompany := ⟨isin.text, shares, asof⟩
  let dets ← mapME processOwner (findChildren fs "Owner")
  pure ⟨company, dets⟩

/-- Model of `fromisoformat(e.attrib[a]) if e.attrib[a] else None`: the attribute
is required; an empty value maps to an absent date. -/
def optAttrDate (e : Element) (a : String) : Except PError (Option Date) := do
  let s ← getAttrE e a
  if s ≠ "" then do
    let d ← fromisoformat s
    pure (some d)
  else pure none

def mkDividend (curr : String) (i : Element) : Except PError Dividend := do
  let ty ← getAttrE i "type"
  let ex ← optAttrDate i "exDate"
  let rd ← optAttrDate i "recordDate"
  let pd ← optAttrDate i "payDate"
  let dd ← optAttrDate i "declarationDate"
  let v ←
    match i.text with
    | none => pure (none : Option PyFloat)
    | some s =>
      if s ≠ "" then do
        let q ← pyFloatText (some s)
        pure (some q)
      else pure none
  pure ⟨ty, ex, rd, pd, dd, curr, v⟩

/-- Embedding of `XMLParser.get_dividend`: absent `Dividends` section yields `none`. -/
def get_dividend (rep : XMLReport) : Except PError (Option (List Dividend)) := do
  match findChild rep.fin_summary "Dividends" with
  | none => pure none
  | some fs => do
    let curr ← getAttrE fs "currency"
    let ds ← mapME (mkDividend curr) fs.children
    pure (some ds)

/-- The comprehension guard shared by the dimensioned-metric extractions:
`(report_type is None or attrib["reportType"] == report_type) and
(period is None or attrib["period"] == period)`, with Python's
short-circuit evaluation (an attribute is only read when the
corresponding filter is set). -/
def keepRow (report_type period : Option String) (i : Element) :
    Except PError Bool := do
  let b1 ←
    match report_type with
    | none => pure true
    | some r => do
      let a ← getAttrE i "reportType"
      pure (decide (a = r))
  if b1 then
    match period with
    | none => pure true
    | some q => do
      let a ← getAttrE i "period"
      pure (decide (a = q))
  else pure false

/-- The filtered list comprehension shared by the dimensioned-metric
extractions: per sibling, evaluate the guard, then (when kept) build the
record, in document order. -/
def summaryRows {α : Type} (mk : Element → Except PError α)
    (report_type period : Option String) :
    List Element → Except PError (List α)
  | [] => Except.ok []
  | i :: is => do
    let b ← keepRow report_type period i
    if b then do
      let r ← mk i
      let rest ← summaryRows mk report_type period is
      pure (r :: rest)
    else summaryRows mk report_type period is

def mkDividendPerShare (curr : String) (i : Element) :
    Except PError DividendPerShare := do
  let s ← getAttrE i "asofDate"
  let d ← fromisoformat s
  let rt ← getAttrE i "reportType"
  let pd ← getAttrE i "period"
  let v ← pyFloatText i.text
  pure ⟨d, rt, pd, curr, v⟩

/-- Embedding of `XMLParser.get_div_per_share`: absent `DividendPerShares` section
yields `none`. -/
def get_div_per_share (rep : XMLReport) (report_type period : Option String) :
    Except PError (Option (List DividendPerShare)) := do
  match findChild rep.fin_summary "DividendPerShares" with
  | none => pure none
  | some fs => do
    let curr ← getAttrE fs "currency"
    let rows ← summaryRows (mkDividendPerShare curr) report_type period fs.children
    pure (some rows)

def mkRevenue (curr : String) (i : Element) : Except PError Revenue := do
  let s ← getAttrE i "asofDate"
  let d ← fromisoformat s
  let rt ← getAttrE i "reportType"
  let pd ← getAttrE i "period"
  let v ← pyFloatText i.text
  pure ⟨d, rt, pd, curr, v⟩

/-- Embedding of `XMLParser.get_revenue`: an absent `TotalRevenues` section is a hard
failure (`find` returns `None` and the attribute access on it raises;
per the specification this is the `missingSection` failure). -/
def get_revenue (rep : XMLReport) (report_type period : Option String) :
    Except PError (List Revenue) := do
  match findChild rep.fin_summary "TotalRevenues" with
  | none => Except.error PError.missingSection
  | some fs => do
    let curr ← getAttrE fs "currency"
    summaryRows (mkRevenue curr) report_type period fs.children

def mkEPS (curr : String) (i : Element) : Except PError EarningsPerShare := do
  let s ← getAttrE i "asofDate"
  let d ← fromisoformat s
  let rt ← getAttrE i "reportType"
  let pd ← getAttrE i "period"
  let v ← pyFloatText i.text
  pure ⟨d, rt, pd, curr, v⟩

/-- Embedding of `XMLParser.get_eps`: an absent `EPSs` section is a hard failure, as
for `get_revenue`. -/
def get_eps (rep : XMLReport) (report_type period : Option String) :
    Except PError (List EarningsPerShare) := do
  match findChild rep.fin_summary "EPSs" with
  | none => Except.error PError.missingSection
  | some fs => do
    let curr ← getAttrE fs "currency"
    summaryRows (mkEPS curr) report_type period fs.children

/-- Model of `g.findall("./Value")[0]`: an absent nested value node is a
`missingField` (Python `IndexError`). -/
def firstValueChild (g : Element) : Except PError Element :=
  match findChildren g "Value" with
  | [] => Except.error PError.missingField
  | v :: _ => Except.ok v

/-- One entry of the analyst-forecast dictionary comprehension: the
normalized `FieldName` key and the float of the first `Value` child's
text. -/
def afStep (acc : List (String × PyFloat)) (g : Element) :
    Except PError (List (String × PyFloat)) := do
  let fn ← getAttrE g "FieldName"
  let vnode ← firstValueChild g
  let q ← pyFloatText vnode.text
  pure (updateAssoc acc (camel_to_snake fn) q)

def afPairs : List (String × PyFloat) → List Element → Except PError (List (String × PyFloat))
  | acc, [] => Except.ok acc
  | acc, g :: gs => do
    let acc1 ← afStep acc g
    afPairs acc1 gs

/-- Embedding of `XMLParser.get_analyst_forecast`. -/
def get_analyst_forecast (rep : XMLReport) : Except PError AnalystForecast := do
  let fs := findallDesc2 rep.snapshot "ForecastData" "Ratio"
  let pairs ← afPairs [] fs
  pure ⟨pairs⟩

/-- The value of one `Ratio` node of the ratio snapshot:
`fromisoformat(r.text) if r.attrib["Type"] == "D" else float(r.text)`.
The `Type` attribute is required (its absence is a `missingField`). -/
def ratioVal (r : Element) : Except PError RVal := do
  let ty ← getAttrE r "Type"
  if ty = "D" then
    match r.text with
    | none => Except.error PError.formatError
    | some s => do
      let d ← fromisoformat s
      pure (RVal.vdate d)
  else do
    let q ← pyFloatText r.text
    pure (RVal.vnum q)

def ratioStep (acc : List (String × RVal)) (r : Element) :
    Except PError (List (String × RVal)) := do
  let fn ← getAttrE r "FieldName"
  let v ← ratioVal r
  pure (updateAssoc acc (lowerStr fn) v)

def ratioPairs : List (String × RVal) → List Element → Except PError (List (String × RVal))
  | acc, [] => Except.ok acc
  | acc, r :: rs => do
    let acc1 ← ratioStep acc r
    ratioPairs acc1 rs

/-- Embedding of `XMLParser.get_ratios`. -/
def get_ratios (rep : XMLReport) : Except PError RatioSnapshot := do
  let fs := findallDesc3 rep.snapshot "Ratios" "Group" "Ratio"
  let pairs ← ratioPairs [] fs
  pure ⟨pairs⟩

/-- Model of `e[0]` on an element: the first child; `missingField` (Python
`IndexError`) when there is none. -/
def firstChildE (e : Element) : Except PError Element :=
  match e.children with
  | [] => Except.error PError.missingField
  | c :: _ => Except.ok c

/-- Model of `pandas.to_datetime` on the ISO-8601 `updated` timestamps
these documents carry. -/
def pdToDatetime (s : String) : Except PError Date :=
  fromisoformat s

/-- One estimate record, from an `FYEstimate` item node `a`, an
`FYPeriod` node `p`, and a `ConsEstimate` leaf node `e`, with the
constructor arguments evaluated in source order. -/
def mkEstimate (a p e : Element) : Except PError ForwardYear := do
  let item ← getAttrE a "type"
  let unit ← getAttrE a "unit"
  let period_type ← getAttrE p "periodType"
  let fys ← getAttrE p "fYear"
  let fyear ← pyIntStr fys
  let ems ← getAttrE p "endMonth"
  let end_month ← pyIntStr ems
  let ecs ← getAttrE p "endCalYear"
  let end_cal_year ← pyIntStr ecs
  let e0 ← firstChildE e
  let value ← pyFloatText e0.text
  let et ← getAttrE e "type"
  pure ⟨"Estimate", item, unit, period_type, fyear, end_month, end_cal_year,
        value, some et, none⟩

/-- One actual record, from an `FYActual` item node `a` and an
`FYPeriod` node `p`, whose first child is the value leaf. -/
def mkActual (a p : Element) : Except PError ForwardYear := do
  let item ← getAttrE a "type"
  let unit ← getAttrE a "unit"
  let period_type ← getAttrE p "periodType"
  let fys ← getAttrE p "fYear"
  let fyear ← pyIntStr fys
  let ems ← getAttrE p "endMonth"
  let end_month ← pyIntStr ems
  let ecs ← getAttrE p "endCalYear"
  let end_cal_year ← pyIntStr ecs
  let p0 ← firstChildE p
  let value ← pyFloatText p0.text
  let ups ← getAttrE p0 "updated"
  let updated ← pdToDatetime ups
  pure ⟨"Actual", item, unit, period_type, fyear, end_month, end_cal_year,
        value, none, some updated⟩

def concatMapM {α β : Type} (f : α → Except PError (List β)) :
    List α → Except PError (List β)
  | [] => Except.ok []
  | x :: xs => do
    let ys ← f x
    let zs ← concatMapM f xs
    pure (ys ++ zs)

/-- Embedding of `XMLParser.get_fy_estimates`: the nested
`FYEstimate → FYPeriod → ConsEstimate` comprehension. -/
def get_fy_estimates (rep : XMLReport) : Except PError (List ForwardYear) :=
  concatMapM
    (fun a =>
      concatMapM
        (fun p => mapME (fun e => mkEstimate a p e) (p.iterTag "ConsEstimate"))
        (a.iterTag "FYPeriod"))
    (rep.resc.iterTag "FYEstimate")

/-- Embedding of `XMLParser.get_fy_actuals`: the nested `FYActual → FYPeriod`
comprehension. -/
def get_fy_actuals (rep : XMLReport) : Except PError (List ForwardYear) :=
  concatMapM
    (fun a => mapME (fun p => mkActual a p) (a.iterTag "FYPeriod"))
    (rep.resc.iterTag "FYActual")

/-- A parser instance: the Python `XMLParser` object identity (which is
what `functools.lru_cache` keys a method call by) together with its
document bundle. -/
structure ParserInst where
  pid : Nat
  report : XMLReport
deriving DecidableEq

/-- The class-level cache behind `@lru_cache(maxsize=4)` on
`XMLParser.get_ownership_report`: one structure shared by every instance
of the class, most-recently-used entry first. -/
structure OwnCache where
  entries : List (ParserInst × OwnershipReport)
deriving DecidableEq

def cacheLookup (st : OwnCache) (p : ParserInst) : Option OwnershipReport :=
  (st.entries.find? (fun e => decide (e.1 = p))).map (fun e => e.2)

/-- Model of `functools.lru_cache(maxsize=4)` applied to
`XMLParser.get_ownership_report`: calls are keyed by the `self`
argument; a hit returns the stored report and marks its entry most
recently used; a miss runs the extraction and, on success, stores the
result, evicting the least recently used entry beyond capacity 4
(exceptions are not cached). -/
def cachedOwnershipReport (st : OwnCache) (p : ParserInst) :
    Except PError (OwnershipReport × OwnCache) :=
  match cacheLookup st p with
  | some r =>
    Except.ok (r, ⟨(p, r) :: st.entries.filter (fun e => ¬ (e.1 = p))⟩)
  | none => do
    let r ← get_ownership_report p.report
    Except.ok (r, ⟨((p, r) :: st.entries).take 4⟩)

/-! ### Basic lemmas about the embedding's plumbing -/

@[simp] theorem ok_bind {α β : Type} (a : α) (f : α → Except PError β) :
    (Except.ok a >>= f) = f a := rfl

@[simp] theorem error_bind {α β : Type} (e : PError) (f : α → Except PError β) :
    ((Except.error e : Except PError α) >>= f) = Except.error e := rfl

@[simp] theorem pure_eq_ok {α : Type} (a : α) :
    (pure a : Except PError α) = Except.ok a := rfl

theorem bind_ok_iff {α β : Type} {x : Except PError α} {f : α → Except PError β}
    {b : β} :
    (x >>= f) = Except.ok b ↔ ∃ a, x = Except.ok a ∧ f a = Except.ok b := by
  cases x with
  | ok a => simp
  | error e => simp

theorem lookup_updateAssoc_self {α : Type} (d : List (String × α)) (k : String)
    (v : α) : (updateAssoc d k v).lookup k = some v := by
  induction d with
  | nil => simp [updateAssoc, List.lookup]
  | cons hd tl ih =>
    obtain ⟨k0, v0⟩ := hd
    by_cases h : k0 = k
    · simp [updateAssoc, h, List.lookup]
    · simp only [updateAssoc, if_neg h, List.lookup]
      have : (k == k0) = false := by
        simp [beq_iff_eq]
        exact fun hh => h hh.symm
      simp [this, ih]

theorem lookup_updateAssoc_ne {α : Type} (d : List (String × α)) (k : String)
    (v : α) {k2 : String} (h : k2 ≠ k) :
    (updateAssoc d k v).lookup k2 = d.lookup k2 := by
  induction d with
  | nil =>
    have hb : (k2 == k) = false := beq_eq_false_iff_ne.mpr h
    simp [updateAssoc, List.lookup, hb]
  | cons hd tl ih =>
    obtain ⟨k0, v0⟩ := hd
    by_cases h0 : k0 = k
    · subst h0
      have hb : (k2 == k0) = false := beq_eq_false_iff_ne.mpr h
      simp [updateAssoc, List.lookup, hb]
    · simp only [updateAssoc, if_neg h0, List.lookup]
      cases hb : (k2 == k0) <;> simp [ih]

theorem mapME_ok_length {α β : Type} {f : α → Except PError β} :
    ∀ {l : List α} {l' : List β}, mapME f l = Except.ok l' → l'.length = l.length := by
  intro l
  induction l with
  | nil => intro l' h; simp [mapME] at h; simp [← h]
  | cons x xs ih =>
    intro l' h
    simp only [mapME] at h
    rw [bind_ok_iff] at h
    obtain ⟨y, hy, h⟩ := h
    rw [bind_ok_iff] at h
    obtain ⟨ys, hys, h⟩ := h
    simp only [pure_eq_ok, Except.ok.injEq] at h
    subst h
    simp [ih hys]

theorem mapME_ok_get {α β : Type} {f : α → Except PError β} :
    ∀ {l : List α} {l' : List β}, mapME f l = Except.ok l' →
      ∀ k (hk : k < l.length) (hk' : k < l'.length),
        f (l.get ⟨k, hk⟩) = Except.ok (l'.get ⟨k, hk'⟩) := by
  intro l
  induction l with
  | nil => intro l' _ k hk; exact absurd hk (by simp)
  | cons x xs ih =>
    intro l' h k hk hk'
    simp only [mapME] at h
    rw [bind_ok_iff] at h
    obtain ⟨y, hy, h⟩ := h
    rw [bind_ok_iff] at h
    obtain ⟨ys, hys, h⟩ := h
    simp only [pure_eq_ok, Except.ok.injEq] at h
    subst h
    cases k with
    | zero => simpa using hy
    | succ n =>
      have hn : n < xs.length := by simpa using hk
      have hn' : n < ys.length := by simpa using hk'
      simpa using ih hys n hn hn'

theorem mapME_ok_mem {α β : Type} {f : α → Except PError β} :
    ∀ {l : List α} {l' : List β}, mapME f l = Except.ok l' →
      ∀ x ∈ l, ∃ y, f x = Except.ok y := by
  intro l
  induction l with
  | nil => intro l' _ x hx; exact absurd hx (by simp)
  | cons z zs ih =>
    intro l' h x hx
    simp only [mapME] at h
    rw [bind_ok_iff] at h
    obtain ⟨y, hy, h⟩ := h
    rw [bind_ok_iff] at h
    obtain ⟨ys, hys, _⟩ := h
    rcases List.mem_cons.mp hx with hx | hx
    · exact ⟨y, hx ▸ hy⟩
    · exact ih hys x hx

theorem mapME_append {α β : Type} (f : α → Except PError β) (xs ys : List α) :
    mapME f (xs ++ ys) =
      (mapME f xs) >>= (fun as => (mapME f ys) >>= (fun bs => pure (as ++ bs))) := by
  induction xs with
  | nil =>
    simp only [List.nil_append, mapME, ok_bind]
    cases mapME f ys with
    | ok bs => simp
    | error e => simp
  | cons x xs ih =>
    simp only [List.cons_append, mapME, List.append_eq]
    rw [ih]
    cases f x with
    | error e => simp
    | ok y =>
      simp only [ok_bind]
      cases mapME f xs with
      | error e => simp
      | ok as =>
        simp only [ok_bind]
        cases mapME f ys with
        | error e => simp
        | ok bs => simp

theorem mapME_map {α β γ : Type} (f : β → Except PError γ) (g : α → β)
    (l : List α) : mapME f (l.map g) = mapME (fun x => f (g x)) l := by
  induction l with
  | nil => simp [mapME]
  | cons x xs ih => simp only [List.map_cons, mapME, ih]

theorem concatMapM_mapME {α β γ : Type} (f : β → Except PError γ)
    (h : α → List β) (l : List α) :
    concatMapM (fun x => mapME f (h x)) l = mapME f (l.flatMap h) := by
  induction l with
  | nil => simp [concatMapM, mapME]
  | cons x xs ih =>
    simp only [concatMapM, List.flatMap_cons, mapME_append, ih]

theorem bind_pure_eq_map {α β : Type} (g : α → β) (x : Except PError α) :
    (x >>= fun a => pure (g a)) = Except.map g x := by
  cases x <;> rfl

theorem getAttrE_eq_ok {e : Element} {a v : String}
    (h : lookupAttr e a = some v) : getAttrE e a = Except.ok v := by
  simp [getAttrE, h]

theorem getAttrE_ok_iff {e : Element} {a v : String} :
    getAttrE e a = Except.ok v ↔ lookupAttr e a = some v := by
  unfold getAttrE
  cases h : lookupAttr e a <;> simp

/-! ### C1: the common filtering contract of the dimensioned metrics -/

/-- The pure form of the dimensioned-metric comprehension guard; it
agrees with the effectful guard on siblings that carry the attributes
the active filters read. -/
def keepPure (report_type period : Option String) (i : Element) : Bool :=
  (match report_type with
   | none => true
   | some r => decide (lookupAttr i "reportType" = some r)) &&
  (match period with
   | none => true
   | some q => decide (lookupAttr i "period" = some q))

theorem keepRow_eq_keepPure (report_type period : Option String) (i : Element)
    (hrt : report_type = none ∨ (lookupAttr i "reportType").isSome = true)
    (hp : period = none ∨ (lookupAttr i "period").isSome = true) :
    keepRow report_type period i = Except.ok (keepPure report_type period i) := by
  cases report_type with
  | none =>
    simp only [keepRow, keepPure, pure_eq_ok, ok_bind, Bool.true_and, if_true]
    cases period with
    | none => rfl
    | some q =>
      rcases hp with hp | hp
      · exact absurd hp (by simp)
      · obtain ⟨v, hv⟩ := Option.isSome_iff_exists.mp hp
        rw [getAttrE_eq_ok hv]
        simp [hv]
  | some r =>
    rcases hrt with hrt | hrt
    · exact absurd hrt (by simp)
    · obtain ⟨v, hv⟩ := Option.isSome_iff_exists.mp hrt
      simp only [keepRow, keepPure, getAttrE_eq_ok hv, ok_bind]
      by_cases hvr : v = r
      · subst hvr
        simp only [decide_eq_true_eq, hv, if_pos rfl]
        cases period with
        | none => simp
        | some q =>
          rcases hp with hp | hp
          · exact absurd hp (by simp)
          · obtain ⟨w, hw⟩ := Option.isSome_iff_exists.mp hp
            rw [getAttrE_eq_ok hw]
            simp [hv, hw]
      · have h1 : decide (v = r) = false := decide_eq_false hvr
        have h2 : decide (lookupAttr i "reportType" = some r) = false := by
          simp [hv, hvr]
        simp [h1, h2]

theorem summaryRows_eq_filter {α : Type} (mk : Element → Except PError α)
    (report_type period : Option String) (l : List Element)
    (h : ∀ i ∈ l,
      (report_type = none ∨ (lookupAttr i "reportType").isSome = true) ∧
      (period = none ∨ (lookupAttr i "period").isSome = true)) :
    summaryRows mk report_type period l =
      mapME mk (l.filter (keepPure report_type period)) := by
  induction l with
  | nil => rfl
  | cons i is ih =>
    have hi := h i (by simp)
    have hrest := fun x hx => h x (List.mem_cons_of_mem _ hx)
    simp only [summaryRows]
    rw [keepRow_eq_keepPure _ _ _ hi.1 hi.2]
    simp only [ok_bind]
    by_cases hk : keepPure report_type period i = true
    · rw [List.filter_cons_of_pos hk]
      simp only [hk, if_true, mapME]
      rw [ih hrest]
    · rw [List.filter_cons_of_neg (by simpa using hk)]
      simp only [hk]
      simp only [if_false, Bool.false_eq_true]
      rw [ih hrest]

/-- **C1.** For every dimensioned-metric extraction (`get_div_per_share`,
`get_revenue`, `get_eps`) over a bundle whose container section is
present (and whose siblings carry the attributes the active filters
read), a sibling node contributes a record if and only if
(the `report_type` argument is `None` or the sibling's `reportType`
attribute equals it) and (the `period` argument is `None` or the
sibling's `period` attribute equals it) — the result is exactly the
record list built over the `keepPure`-filtered siblings, in document
order — and with both arguments `None` the filter keeps every sibling. -/
theorem dimensioned_metric_filter (rep : XMLReport) (rt p : Option String)
    (fsD fsR fsE : Element) (currD currR currE : String)
    (hD : findChild rep.fin_summary "DividendPerShares" = some fsD)
    (hcD : getAttrE fsD "currency" = Except.ok currD)
    (haD : ∀ i ∈ fsD.children,
      (rt = none ∨ (lookupAttr i "reportType").isSome = true) ∧
      (p = none ∨ (lookupAttr i "period").isSome = true))
    (hR : findChild rep.fin_summary "TotalRevenues" = some fsR)
    (hcR : getAttrE fsR "currency" = Except.ok currR)
    (haR : ∀ i ∈ fsR.children,
      (rt = none ∨ (lookupAttr i "reportType").isSome = true) ∧
      (p = none ∨ (lookupAttr i "period").isSome = true))
    (hE : findChild rep.fin_summary "EPSs" = some fsE)
    (hcE : getAttrE fsE "currency" = Except.ok currE)
    (haE : ∀ i ∈ fsE.children,
      (rt = none ∨ (lookupAttr i "reportType").isSome = true) ∧
      (p = none ∨ (lookupAttr i "period").isSome = true)) :
    get_div_per_share rep rt p =
      Except.map some
        (mapME (mkDividendPerShare currD) (fsD.children.filter (keepPure rt p))) ∧
    get_revenue rep rt p =
      mapME (mkRevenue currR) (fsR.children.filter (keepPure rt p)) ∧
    get_eps rep rt p =
      mapME (mkEPS currE) (fsE.children.filter (keepPure rt p)) ∧
    (rt = none → p = none → ∀ l : List Element, l.filter (keepPure rt p) = l) := by
  refine ⟨?_, ?_, ?_, ?_⟩
  · simp only [get_div_per_share, hD]
    rw [hcD]
    simp only [ok_bind]
    rw [summaryRows_eq_filter _ _ _ _ haD]
    exact bind_pure_eq_map _ _
  · simp only [get_revenue, hR]
    rw [hcR]
    simp only [ok_bind]
    exact summaryRows_eq_filter _ _ _ _ haR
  · simp only [get_eps, hE]
    rw [hcE]
    simp only [ok_bind]
    exact summaryRows_eq_filter _ _ _ _ haE
  · intro hrt hp l
    subst hrt
    subst hp
    simp [keepPure]

def wDivPS : Element :=
  .mk "DividendPerShares" [("currency", "USD")] none
    [ .mk "DividendPerShare"
        [("asofDate", "2023-03-31"), ("reportType", "A"), ("period", "12M")]
        (some "0.96") []
    , .mk "DividendPerShare"
        [("asofDate", "2023-06-30"), ("reportType", "TTM"), ("period", "12M")]
        (some "0.94") [] ]

def wTotalRev : Element :=
  .mk "TotalRevenues" [("currency", "USD")] none
    [ .mk "TotalRevenue"
        [("asofDate", "2023-03-31"), ("reportType", "A"), ("period", "12M")]
        (some "394328") []
    , .mk "TotalRevenue"
        [("asofDate", "2023-06-30"), ("reportType", "R"), ("period", "3M")]
        (some "81797") [] ]

def wEPSs : Element :=
  .mk "EPSs" [("currency", "USD")] none
    [ .mk "EPS"
        [("asofDate", "2023-03-31"), ("reportType", "A"), ("period", "12M")]
        (some "6.11") []
    , .mk "EPS"
        [("asofDate", "2023-06-30"), ("reportType", "TTM"), ("period", "12M")]
        (some "5.89") [] ]

def wFinSummary : Element :=
  .mk "FinancialSummary" [] none [wDivPS, wTotalRev, wEPSs]

def wRep : XMLReport :=
  ⟨.mk "O" [] none [], wFinSummary, .mk "S" [] none [], .mk "R" [] none []⟩

/-- Witness for C1: the filtering contract instantiated on a concrete
bundle with `report_type = "A"` and no period filter. -/
theorem dimensioned_metric_filter_witness :
    get_div_per_share wRep (some "A") none =
      Except.map some
        (mapME (mkDividendPerShare "USD")
          (wDivPS.children.filter (keepPure (some "A") none))) ∧
    get_revenue wRep (some "A") none =
      mapME (mkRevenue "USD") (wTotalRev.children.filter (keepPure (some "A") none)) ∧
    get_eps wRep (some "A") none =
      mapME (mkEPS "USD") (wEPSs.children.filter (keepPure (some "A") none)) ∧
    (some "A" = none → (none : Option String) = none →
      ∀ l : List Element, l.filter (keepPure (some "A") none) = l) :=
  dimensioned_metric_filter wRep (some "A") none wDivPS wTotalRev wEPSs
    "USD" "USD" "USD"
    (by decide) (by decide) (by decide)
    (by decide) (by decide) (by decide)
    (by decide) (by decide) (by decide)

/-! ### C2: required section vs optional section -/

/-- **C2.** For every bundle whose financial-summary tree lacks the
`TotalRevenues` container, `get_revenue` fails with the missing-section
error; for every bundle whose financial-summary tree lacks the
`Dividends` container, `get_dividend` returns an absent (`none`) result
and does not raise. -/
theorem missing_section_behaviour (rep : XMLReport) (rt p : Option String) :
    (findChild rep.fin_summary "TotalRevenues" = none →
      get_revenue rep rt p = Except.error PError.missingSection) ∧
    (findChild rep.fin_summary "Dividends" = none →
      get_dividend rep = Except.ok none) := by
  constructor
  · intro h
    simp [get_revenue, h]
  · intro h
    simp [get_dividend, h]

def emptyFinRep : XMLReport :=
  ⟨.mk "O" [] none [], .mk "FinancialSummary" [] none [],
   .mk "S" [] none [], .mk "R" [] none []⟩

/-- Witness for C2 on a bundle with an empty financial summary. -/
theorem missing_section_behaviour_witness :
    get_revenue emptyFinRep none none = Except.error PError.missingSection ∧
    get_dividend emptyFinRep = Except.ok none :=
  ⟨(missing_section_behaviour emptyFinRep none none).1 (by decide),
   (missing_section_behaviour emptyFinRep none none).2 (by decide)⟩

/-! ### C3: date-token handling is not uniform across extraction sites -/

def c3DivItem (s : String) : Element :=
  .mk "Dividend"
    [("type", "CD"), ("exDate", s), ("recordDate", ""), ("payDate", ""),
     ("declarationDate", "")]
    (some "5") []

def c3DivSection (s : String) : Element :=
  .mk "Dividends" [("currency", "USD")] none [c3DivItem s]

def c3DivRep (s : String) : XMLReport :=
  ⟨.mk "O" [] none [], .mk "FinancialSummary" [] none [c3DivSection s],
   .mk "S" [] none [], .mk "R" [] none []⟩

def c3OwnRep (s : String) : XMLReport :=
  ⟨.mk "OwnershipDetails" [] none
    [ .mk "ISIN" [] (some "US0378331005") []
    , .mk "floatShares" [("asofDate", s)] (some "100") [] ],
   .mk "F" [] none [], .mk "S" [] none [], .mk "R" [] none []⟩

/-- **C3 counterexample.** The claim that the sentinel token `"0"` and
the empty token both yield an absent date uniformly across all
extraction operations is false: `get_dividend` fails with a
`formatError` on the sentinel `"0"` (it only treats the empty token as
absent), and `get_ownership_report` fails with a `formatError` on the
empty company date token (it only treats `"0"` as absent). -/
theorem date_sentinel_not_uniform :
    get_dividend (c3DivRep "0") = Except.error PError.formatError ∧
    get_ownership_report (c3OwnRep "") = Except.error PError.formatError := by
  constructor <;> decide

/-- **C3 amended.** Date-token handling is per-site, not uniform: the
dividend extraction treats the empty token as an absent date, parses a
valid ISO-8601 token, and fails with a `formatError` on any other
non-empty token (including the sentinel `"0"`); the ownership-company
extraction treats the sentinel `"0"` as an absent date, parses a valid
ISO-8601 token, and fails with a `formatError` on any other non-sentinel
token (including the empty token). The shared ISO-8601 reader rejects
`"0"`, the empty token, and non-date text, and accepts a valid date. -/
theorem date_token_handling_per_site (s : String) (d : Date) :
    (s = "" → get_dividend (c3DivRep s) =
      Except.ok (some [⟨"CD", none, none, none, none, "USD", some ⟨false, 5, 0, 0⟩⟩])) ∧
    (fromisoformatCore s = some d → get_dividend (c3DivRep s) =
      Except.ok (some [⟨"CD", some d, none, none, none, "USD", some ⟨false, 5, 0, 0⟩⟩])) ∧
    (s ≠ "" → fromisoformatCore s = none →
      get_dividend (c3DivRep s) = Except.error PError.formatError) ∧
    (s = "0" → get_ownership_report (c3OwnRep s) =
      Except.ok ⟨⟨some "US0378331005", 100, none⟩, []⟩) ∧
    (s ≠ "0" → fromisoformatCore s = some d →
      get_ownership_report (c3OwnRep s) =
        Except.ok ⟨⟨some "US0378331005", 100, some d⟩, []⟩) ∧
    (s ≠ "0" → fromisoformatCore s = none →
      get_ownership_report (c3OwnRep s) = Except.error PError.formatError) ∧
    fromisoformatCore "0" = none ∧ fromisoformatCore "" = none ∧
    fromisoformatCore "2023-03-31" = some ⟨2023, 3, 31⟩ ∧
    fromisoformatCore "not-a-date" = none := by
  have hdiv : ∀ t : String, get_dividend (c3DivRep t) =
      (do
        let ex ← optAttrDate (c3DivItem t) "exDate"
        Except.ok (some [⟨"CD", ex, none, none, none, "USD", some ⟨false, 5, 0, 0⟩⟩])) := by
    intro t
    show (do
      let curr ← getAttrE (c3DivSection t) "currency"
      let ds ← mapME (mkDividend curr) (c3DivSection t).children
      pure (some ds)) = _
    rw [show getAttrE (c3DivSection t) "currency" = Except.ok "USD" from rfl]
    simp only [ok_bind]
    show (do
      let ds ← (do
        let y ← mkDividend "USD" (c3DivItem t)
        let ys ← mapME (mkDividend "USD") []
        pure (y :: ys))
      pure (some ds) : Except PError (Option (List Dividend))) = _
    simp only [mkDividend]
    rw [show getAttrE (c3DivItem t) "type" = Except.ok "CD" from rfl]
    simp only [ok_bind]
    cases hx : optAttrDate (c3DivItem t) "exDate" with
    | error e => simp
    | ok ex =>
      simp only [ok_bind]
      rw [show optAttrDate (c3DivItem t) "recordDate" = Except.ok none from rfl]
      rw [show optAttrDate (c3DivItem t) "payDate" = Except.ok none from rfl]
      rw [show optAttrDate (c3DivItem t) "declarationDate" = Except.ok none from rfl]
      simp only [ok_bind]
      rw [show (c3DivItem t).text = some "5" from rfl]
      simp [mapME,
        show pyFloatText (some "5") = Except.ok ⟨false, 5, 0, 0⟩ from rfl]
  have hx0 : ∀ t : String, getAttrE (c3DivItem t) "exDate" = Except.ok t := by
    intro t; rfl
  have hown : ∀ t : String, get_ownership_report (c3OwnRep t) =
      (do
        let asof ←
          if t ≠ "0" then do
            let dd ← fromisoformat t
            pure (some dd)
          else pure (none : Option Date)
        Except.ok ⟨⟨some "US0378331005", 100, asof⟩, []⟩) := by
    intro t
    show (do
      let isin ← unpackSingleton (findChildren (c3OwnRep t).ownership "ISIN")
      let fa ← unpackSingleton (findChildren (c3OwnRep t).ownership "floatShares")
      let shares ← pyIntText fa.text
      let s0 ← getAttrE fa "asofDate"
      let asof ← companyAsOfDate s0
      let company : OwnershipCompany := ⟨isin.text, shares, asof⟩
      let dets ← mapME processOwner (findChildren (c3OwnRep t).ownership "Owner")
      pure (OwnershipReport.mk company dets)) = _
    rw [show unpackSingleton (findChildren (c3OwnRep t).ownership "ISIN") =
          Except.ok (.mk "ISIN" [] (some "US0378331005") []) from rfl]
    simp only [ok_bind]
    rw [show unpackSingleton (findChildren (c3OwnRep t).ownership "floatShares") =
          Except.ok (.mk "floatShares" [("asofDate", t)] (some "100") []) from rfl]
    simp only [ok_bind]
    rw [show pyIntText (Element.text (.mk "floatShares" [("asofDate", t)] (some "100") [])) =
          Except.ok 100 from rfl]
    simp only [ok_bind]
    rw [show getAttrE (.mk "floatShares" [("asofDate", t)] (some "100") []) "asofDate" =
          Except.ok t from rfl]
    simp only [ok_bind]
    unfold companyAsOfDate
    by_cases ht : t = "0"
    · subst ht
      rw [if_neg (by simp : ¬ ("0" ≠ "0"))]
      simp only [pure_eq_ok, ok_bind]
      rw [show mapME processOwner (findChildren (c3OwnRep "0").ownership "Owner") =
            Except.ok [] from rfl]
      simp [Element.text]
    · rw [if_pos ht]
      cases hf : fromisoformat t with
      | error e => simp [if_neg ht]
      | ok dd =>
        simp only [ok_bind, pure_eq_ok]
        rw [show mapME processOwner (findChildren (c3OwnRep t).ownership "Owner") =
              Except.ok [] from rfl]
        simp [Element.text, if_neg ht]
  refine ⟨?_, ?_, ?_, ?_, ?_, ?_, by decide, by decide, by decide, by decide⟩
  · intro he
    subst he
    decide
  · intro h
    rw [hdiv s]
    have hne : s ≠ "" := by
      intro he
      rw [he] at h
      simp [fromisoformatCore] at h
    simp only [optAttrDate, hx0 s, ok_bind, if_pos hne]
    rw [show fromisoformat s = Except.ok d by simp [fromisoformat, h]]
    simp
  · intro hne h
    rw [hdiv s]
    simp only [optAttrDate, hx0 s, ok_bind, if_pos hne]
    rw [show fromisoformat s = Except.error PError.formatError by
      simp [fromisoformat, h]]
    simp
  · intro he
    subst he
    decide
  · intro hne h
    rw [hown s]
    rw [if_pos hne]
    rw [show fromisoformat s = Except.ok d by simp [fromisoformat, h]]
    simp
  · intro hne h
    rw [hown s]
    rw [if_pos hne]
    rw [show fromisoformat s = Except.error PError.formatError by
      simp [fromisoformat, h]]
    simp

/-- Witness for the amended C3 statement on concrete tokens. -/
theorem date_token_handling_per_site_witness :
    get_dividend (c3DivRep "2023-03-31") =
      Except.ok (some [⟨"CD", some ⟨2023, 3, 31⟩, none, none, none, "USD", some ⟨false, 5, 0, 0⟩⟩]) ∧
    get_ownership_report (c3OwnRep "0") =
      Except.ok ⟨⟨some "US0378331005", 100, none⟩, []⟩ :=
  ⟨(date_token_handling_per_site "2023-03-31" ⟨2023, 3, 31⟩).2.1 (by decide),
   (date_token_handling_per_site "0" ⟨2023, 3, 31⟩).2.2.2.1 (by decide)⟩

/-! ### C8: ownership requires exactly one ISIN and one floatShares node -/

theorem unpackSingleton_ne_one {xs : List Element} (h : xs.length ≠ 1) :
    unpackSingleton xs = Except.error PError.missingSection := by
  match xs with
  | [] => rfl
  | [x] => exact absurd rfl h
  | x :: y :: rest => rfl

/-- **C8.** `get_ownership_report` fails with the missing-section error
unless the ownership tree contains exactly one `ISIN` node and exactly
one `floatShares` node — both when a node is missing and when more than
one is present. -/
theorem ownership_singleton_sections (rep : XMLReport) :
    ((findChildren rep.ownership "ISIN").length ≠ 1 →
      get_ownership_report rep = Except.error PError.missingSection) ∧
    ((findChildren rep.ownership "ISIN").length = 1 →
      (findChildren rep.ownership "floatShares").length ≠ 1 →
      get_ownership_report rep = Except.error PError.missingSection) := by
  constructor
  · intro h
    show (do
      let isin ← unpackSingleton (findChildren rep.ownership "ISIN")
      let fa ← unpackSingleton (findChildren rep.ownership "floatShares")
      let shares ← pyIntText fa.text
      let s ← getAttrE fa "asofDate"
      let asof ← companyAsOfDate s
      let company : OwnershipCompany := ⟨isin.text, shares, asof⟩
      let dets ← mapME processOwner (findChildren rep.ownership "Owner")
      pure (OwnershipReport.mk company dets)) = Except.error PError.missingSection
    rw [unpackSingleton_ne_one h]
    simp
  · intro h1 h2
    show (do
      let isin ← unpackSingleton (findChildren rep.ownership "ISIN")
      let fa ← unpackSingleton (findChildren rep.ownership "floatShares")
      let shares ← pyIntText fa.text
      let s ← getAttrE fa "asofDate"
      let asof ← companyAsOfDate s
      let company : OwnershipCompany := ⟨isin.text, shares, asof⟩
      let dets ← mapME processOwner (findChildren rep.ownership "Owner")
      pure (OwnershipReport.mk company dets)) = Except.error PError.missingSection
    obtain ⟨x, hx⟩ : ∃ x, findChildren rep.ownership "ISIN" = [x] := by
      match hh : findChildren rep.ownership "ISIN" with
      | [x] => exact ⟨x, rfl⟩
      | [] => rw [hh] at h1; simp at h1
      | x :: y :: rest => rw [hh] at h1; simp at h1
    rw [hx]
    rw [show unpackSingleton [x] = Except.ok x from rfl]
    simp only [ok_bind]
    rw [unpackSingleton_ne_one h2]
    simp

def c8NoIsinRep : XMLReport :=
  ⟨.mk "OwnershipDetails" [] none
    [.mk "floatShares" [("asofDate", "0")] (some "100") []],
   .mk "F" [] none [], .mk "S" [] none [], .mk "R" [] none []⟩

def c8TwoFloatRep : XMLReport :=
  ⟨.mk "OwnershipDetails" [] none
    [ .mk "ISIN" [] (some "US0378331005") []
    , .mk "floatShares" [("asofDate", "0")] (some "100") []
    , .mk "floatShares" [("asofDate", "0")] (some "200") [] ],
   .mk "F" [] none [], .mk "S" [] none [], .mk "R" [] none []⟩

/-- Witness for C8: a bundle with no `ISIN` node and a bundle with two
`floatShares` nodes both fail with the missing-section error. -/
theorem ownership_singleton_sections_witness :
    get_ownership_report c8NoIsinRep = Except.error PError.missingSection ∧
    get_ownership_report c8TwoFloatRep = Except.error PError.missingSection :=
  ⟨(ownership_singleton_sections c8NoIsinRep).1 (by decide),
   (ownership_singleton_sections c8TwoFloatRep).2 (by decide) (by decide)⟩

/-! ### C4: shape of the owner rows built by `get_ownership_report` -/

theorem ownStep_ok {d : List (String × DVal)} {j : Element}
    {d1 : List (String × DVal)} (h : ownStep d j = Except.ok d1) :
    ∃ d0 v, childVal j = Except.ok v ∧ d1 = updateAssoc d0 j.tag v ∧
      ((d.lookup "as_of_date" = none ∧ ¬ j.attrs.isEmpty ∧
        ∃ s dt, lookupAttr j "asofDate" = some s ∧
          fromisoformat s = Except.ok dt ∧
          d0 = updateAssoc d "as_of_date" (DVal.vdate dt)) ∨
       ((d.lookup "as_of_date" ≠ none ∨ j.attrs.isEmpty) ∧ d0 = d)) := by
  unfold ownStep at h
  by_cases hc : (d.lookup "as_of_date") = none ∧ ¬ j.attrs.isEmpty
  · rw [if_pos hc] at h
    cases hs : getAttrE j "asofDate" with
    | error e => rw [hs] at h; simp at h
    | ok s =>
      rw [hs] at h
      simp only [ok_bind] at h
      cases hdt : fromisoformat s with
      | error e => rw [hdt] at h; simp at h
      | ok dt =>
        rw [hdt] at h
        simp only [ok_bind, pure_eq_ok] at h
        cases hv : childVal j with
        | error e => rw [hv] at h; simp at h
        | ok v =>
          rw [hv] at h
          simp only [ok_bind, pure_eq_ok, Except.ok.injEq] at h
          exact ⟨updateAssoc d "as_of_date" (DVal.vdate dt), v, rfl, h.symm,
            Or.inl ⟨hc.1, hc.2, s, dt, getAttrE_ok_iff.mp hs, hdt, rfl⟩⟩
  · rw [if_neg hc] at h
    simp only [pure_eq_ok, ok_bind] at h
    cases hv : childVal j with
    | error e => rw [hv] at h; simp at h
    | ok v =>
      rw [hv] at h
      simp only [ok_bind, pure_eq_ok, Except.ok.injEq] at h
      refine ⟨d, v, rfl, h.symm, Or.inr ⟨?_, rfl⟩⟩
      by_cases h1 : d.lookup "as_of_date" = none
      · right
        by_contra h2
        exact hc ⟨h1, h2⟩
      · left; exact h1

theorem poc_fields {t : String} (hne : t ≠ "as_of_date") :
    ∀ {cs : List Element} {d d' : List (String × DVal)},
      processOwnerChildren d cs = Except.ok d' →
      (match (cs.filter (fun j => j.tag == t)).getLast? with
       | some j => ∃ v, childVal j = Except.ok v ∧ d'.lookup t = some v
       | none => d'.lookup t = d.lookup t) := by
  intro cs
  induction cs with
  | nil =>
    intro d d' h
    simp only [processOwnerChildren, Except.ok.injEq] at h
    subst h
    simp
  | cons j js ih =>
    intro d d' h
    simp only [processOwnerChildren] at h
    rw [bind_ok_iff] at h
    obtain ⟨d1, hd1, h⟩ := h
    obtain ⟨d0, v, hv, hupd, hd0⟩ := ownStep_ok hd1
    have hd0t : d0.lookup t = d.lookup t := by
      rcases hd0 with ⟨_, _, _, _, _, _, hd0⟩ | ⟨_, hd0⟩
      · rw [hd0, lookup_updateAssoc_ne _ _ _ hne]
      · rw [hd0]
    have hrec := ih h
    by_cases hjt : j.tag = t
    · have hd1t : d1.lookup t = some v := by
        rw [hupd, hjt, lookup_updateAssoc_self]
      rw [List.filter_cons_of_pos (by simp [hjt])]
      cases hfl : (js.filter (fun j => j.tag == t)).getLast? with
      | none =>
        rw [hfl] at hrec
        have hnil : js.filter (fun j => j.tag == t) = [] :=
          List.getLast?_eq_none_iff.mp hfl
        rw [hnil]
        exact ⟨v, hv, by rw [hrec, hd1t]⟩
      | some a =>
        rw [hfl] at hrec
        obtain ⟨b, bs, hh⟩ : ∃ b bs, js.filter (fun j => j.tag == t) = b :: bs := by
          cases hh : js.filter (fun j => j.tag == t) with
          | nil => rw [hh] at hfl; simp at hfl
          | cons b bs => exact ⟨b, bs, rfl⟩
        rw [hh]
        rw [List.getLast?_cons_cons]
        rw [hh] at hfl
        rw [hfl]
        exact hrec
    · have hd1t : d1.lookup t = d.lookup t := by
        rw [hupd, lookup_updateAssoc_ne _ _ _ (fun hh => hjt hh.symm), hd0t]
      rw [List.filter_cons_of_neg (by simp [hjt])]
      cases hfl : (js.filter (fun j => j.tag == t)).getLast? with
      | none =>
        rw [hfl] at hrec
        rw [hrec, hd1t]
      | some a =>
        rw [hfl] at hrec
        exact hrec

theorem poc_aod_set :
    ∀ {cs : List Element} {d d' : List (String × DVal)} {v : DVal},
      (∀ j ∈ cs, j.tag ≠ "as_of_date") →
      d.lookup "as_of_date" = some v →
      processOwnerChildren d cs = Except.ok d' →
      d'.lookup "as_of_date" = some v := by
  intro cs
  induction cs with
  | nil =>
    intro d d' v _ hset h
    simp only [processOwnerChildren, Except.ok.injEq] at h
    subst h
    exact hset
  | cons j js ih =>
    intro d d' v htags hset h
    simp only [processOwnerChildren] at h
    rw [bind_ok_iff] at h
    obtain ⟨d1, hd1, h⟩ := h
    obtain ⟨d0, w, hw, hupd, hd0⟩ := ownStep_ok hd1
    have hd0a : d0.lookup "as_of_date" = some v := by
      rcases hd0 with ⟨hnone, _⟩ | ⟨_, hd0⟩
      · rw [hset] at hnone; exact absurd hnone (by simp)
      · rw [hd0]; exact hset
    have hd1a : d1.lookup "as_of_date" = some v := by
      rw [hupd, lookup_updateAssoc_ne _ _ _
        (fun hh => htags j (by simp) hh.symm), hd0a]
    exact ih (fun x hx => htags x (List.mem_cons_of_mem _ hx)) hd1a h

theorem poc_aod_none :
    ∀ {cs : List Element} {d d' : List (String × DVal)},
      (∀ j ∈ cs, j.tag ≠ "as_of_date") →
      d.lookup "as_of_date" = none →
      processOwnerChildren d cs = Except.ok d' →
      (match cs.find? (fun j => ¬ j.attrs.isEmpty) with
       | none => d'.lookup "as_of_date" = none
       | some j => ∃ s dt, lookupAttr j "asofDate" = some s ∧
           fromisoformat s = Except.ok dt ∧
           d'.lookup "as_of_date" = some (DVal.vdate dt)) := by
  intro cs
  induction cs with
  | nil =>
    intro d d' _ hinit h
    simp only [processOwnerChildren, Except.ok.injEq] at h
    subst h
    simpa using hinit
  | cons j js ih =>
    intro d d' htags hinit h
    simp only [processOwnerChildren] at h
    rw [bind_ok_iff] at h
    obtain ⟨d1, hd1, h⟩ := h
    obtain ⟨d0, w, hw, hupd, hd0⟩ := ownStep_ok hd1
    have hjt : j.tag ≠ "as_of_date" := htags j (by simp)
    by_cases hatt : j.attrs.isEmpty
    · have hd0e : d0 = d := by
        rcases hd0 with ⟨_, hne, _⟩ | ⟨_, hd0⟩
        · exact absurd hatt hne
        · exact hd0
      have hd1a : d1.lookup "as_of_date" = none := by
        rw [hupd, lookup_updateAssoc_ne _ _ _ (fun hh => hjt hh.symm), hd0e]
        exact hinit
      rw [List.find?_cons_of_neg _ (by simp [hatt])]
      exact ih (fun x hx => htags x (List.mem_cons_of_mem _ hx)) hd1a h
    · rcases hd0 with ⟨_, _, s, dt, hs, hdt, hd0e⟩ | ⟨hg, _⟩
      · have hd1a : d1.lookup "as_of_date" = some (DVal.vdate dt) := by
          rw [hupd, lookup_updateAssoc_ne _ _ _ (fun hh => hjt hh.symm), hd0e,
            lookup_updateAssoc_self]
        rw [List.find?_cons_of_pos _ (by simpa using hatt)]
        exact ⟨s, dt, hs, hdt,
          poc_aod_set (fun x hx => htags x (List.mem_cons_of_mem _ hx)) hd1a h⟩
      · rcases hg with hg | hg
        · exact absurd hinit hg
        · exact absurd hg hatt

theorem find?_implies {α : Type} (p q : α → Bool)
    (himp : ∀ a, q a = true → p a = true) :
    ∀ (l : List α) (x : α), l.find? p = some x → q x = true → l.find? q = some x := by
  intro l
  induction l with
  | nil => intro x h; simp at h
  | cons a as ih =>
    intro x h hq
    by_cases hpa : p a = true
    · rw [List.find?_cons_of_pos _ hpa] at h
      have hax : a = x := by simpa using h
      subst hax
      rw [List.find?_cons_of_pos _ hq]
    · rw [List.find?_cons_of_neg _ (by simpa using hpa)] at h
      have hqa : q a = false := by
        by_contra hc
        exact hpa (himp a (by simpa using hc))
      rw [List.find?_cons_of_neg _ (by simp [hqa])]
      exact ih x h hq

theorem dated_has_attrs (a : Element) (h : (lookupAttr a "asofDate").isSome = true) :
    (decide ¬ a.attrs.isEmpty = true) = true := by
  cases ha : a.attrs with
  | nil =>
    rw [show lookupAttr a "asofDate" = none by simp [lookupAttr, ha, List.lookup]] at h
    simp at h
  | cons x xs => simp [ha]

theorem processOwner_fields {i : Element} {od : OwnershipDetails}
    (h : processOwner i = Except.ok od)
    (htags : ∀ j ∈ i.children, j.tag ≠ "owner_id" ∧ j.tag ≠ "as_of_date") :
    (∃ oid, lookupAttr i "ownerId" = some oid ∧
      od.fields.lookup "owner_id" = some (DVal.vstr oid)) ∧
    (i.children.find? (fun j => (lookupAttr j "asofDate").isSome) = none →
      od.fields.lookup "as_of_date" = none) ∧
    (∀ j, i.children.find? (fun j => (lookupAttr j "asofDate").isSome) = some j →
      ∃ s dt, lookupAttr j "asofDate" = some s ∧
        fromisoformat s = Except.ok dt ∧
        od.fields.lookup "as_of_date" = some (DVal.vdate dt)) ∧
    (∀ t : String, t ≠ "owner_id" → t ≠ "as_of_date" →
      (match (i.children.filter (fun j => j.tag == t)).getLast? with
       | some j => ∃ v, childVal j = Except.ok v ∧ od.fields.lookup t = some v
       | none => od.fields.lookup t = none)) := by
  have h' := h
  unfold processOwner at h'
  rw [bind_ok_iff] at h'
  obtain ⟨oid, hoid, h'⟩ := h'
  rw [bind_ok_iff] at h'
  obtain ⟨d, hd, h'⟩ := h'
  simp only [pure_eq_ok, Except.ok.injEq] at h'
  subst h'
  have hinit_aod : (([("owner_id", DVal.vstr oid)] :
      List (String × DVal)).lookup "as_of_date") = none := by
    simp [List.lookup]
  have htagsA : ∀ j ∈ i.children, j.tag ≠ "as_of_date" := fun j hj => (htags j hj).2
  refine ⟨⟨oid, getAttrE_ok_iff.mp hoid, ?_⟩, ?_, ?_, ?_⟩
  · have := poc_fields (t := "owner_id") (by decide) hd
    have hfil : i.children.filter (fun j => j.tag == "owner_id") = [] := by
      rw [List.filter_eq_nil_iff]
      intro j hj
      simpa using (htags j hj).1
    rw [hfil] at this
    simp only [List.getLast?_nil] at this
    rw [this]
    simp [List.lookup]
  · intro hnone
    have hmain := poc_aod_none htagsA hinit_aod hd
    cases hfa : i.children.find? (fun j => decide ¬ j.attrs.isEmpty = true) with
    | none =>
      rw [hfa] at hmain
      exact hmain
    | some j0 =>
      rw [hfa] at hmain
      obtain ⟨s, dt, hs, _, _⟩ := hmain
      have hj0dated : (fun j => (lookupAttr j "asofDate").isSome) j0 = true := by
        simp [hs]
      have := find?_implies (fun j => decide ¬ j.attrs.isEmpty = true)
        (fun j => (lookupAttr j "asofDate").isSome) dated_has_attrs
        i.children j0 hfa hj0dated
      rw [this] at hnone
      exact absurd hnone (by simp)
  · intro j hj
    have hmain := poc_aod_none htagsA hinit_aod hd
    cases hfa : i.children.find? (fun j => decide ¬ j.attrs.isEmpty = true) with
    | none =>
      exfalso
      have hmem := List.mem_of_find?_eq_some hj
      have hdated := List.find?_some hj
      have hja : (decide ¬ j.attrs.isEmpty = true) = true := dated_has_attrs j hdated
      exact (List.find?_eq_none.mp hfa j hmem) hja
    | some j0 =>
      rw [hfa] at hmain
      obtain ⟨s, dt, hs, hdt, hres⟩ := hmain
      have hj0dated : (fun j => (lookupAttr j "asofDate").isSome) j0 = true := by
        simp [hs]
      have heq := find?_implies (fun j => decide ¬ j.attrs.isEmpty = true)
        (fun j => (lookupAttr j "asofDate").isSome) dated_has_attrs
        i.children j0 hfa hj0dated
      rw [heq] at hj
      have : j0 = j := by simpa using hj
      subst this
      exact ⟨s, dt, hs, hdt, hres⟩
  · intro t ht1 ht2
    have := poc_fields (t := t) ht2 hd
    cases hfl : (i.children.filter (fun j => j.tag == t)).getLast? with
    | none =>
      rw [hfl] at this
      rw [this]
      have hb : (t == "owner_id") = false := beq_eq_false_iff_ne.mpr ht1
      simp [List.lookup, hb]
    | some a =>
      rw [hfl] at this
      exact this

theorem get_ownership_report_ok_details {rep : XMLReport}
    {orep : OwnershipReport} (h : get_ownership_report rep = Except.ok orep) :
    mapME processOwner (findChildren rep.ownership "Owner") =
      Except.ok orep.ownership_details := by
  unfold get_ownership_report at h
  rw [bind_ok_iff] at h
  obtain ⟨isin, _, h⟩ := h
  rw [bind_ok_iff] at h
  obtain ⟨fa, _, h⟩ := h
  rw [bind_ok_iff] at h
  obtain ⟨shares, _, h⟩ := h
  rw [bind_ok_iff] at h
  obtain ⟨s, _, h⟩ := h
  rw [bind_ok_iff] at h
  obtain ⟨asof, _, h⟩ := h
  rw [bind_ok_iff] at h
  obtain ⟨dets, hdets, h⟩ := h
  simp only [pure_eq_ok, Except.ok.injEq] at h
  rw [← h]
  exact hdets

/-- **C4.** For every owner row processed by `get_ownership_report`
(on a run that succeeds, over rows whose children do not collide with
the reserved `owner_id`/`as_of_date` field names), the resulting
`OwnershipDetails` record has `owner_id` present (bound to the row's
`ownerId` attribute), has `as_of_date` taken from the first child node
carrying a date attribute — never overwritten by later dated siblings,
and absent when no child carries one — has the child tagged `quantity`
parsed as a float, and has every other named child stored as text (its
field holding the stored value of the last same-tagged child). -/
theorem ownership_rows (rep : XMLReport) (orep : OwnershipReport)
    (h : get_ownership_report rep = Except.ok orep)
    (htags : ∀ i ∈ findChildren rep.ownership "Owner",
      ∀ j ∈ i.children, j.tag ≠ "owner_id" ∧ j.tag ≠ "as_of_date") :
    orep.ownership_details.length = (findChildren rep.ownership "Owner").length ∧
    (∀ k (hk : k < (findChildren rep.ownership "Owner").length)
       (hk2 : k < orep.ownership_details.length),
      (∃ oid, lookupAttr ((findChildren rep.ownership "Owner").get ⟨k, hk⟩)
          "ownerId" = some oid ∧
        (orep.ownership_details.get ⟨k, hk2⟩).fields.lookup "owner_id" =
          some (DVal.vstr oid)) ∧
      (((findChildren rep.ownership "Owner").get ⟨k, hk⟩).children.find?
          (fun j => (lookupAttr j "asofDate").isSome) = none →
        (orep.ownership_details.get ⟨k, hk2⟩).fields.lookup "as_of_date" = none) ∧
      (∀ j, ((findChildren rep.ownership "Owner").get ⟨k, hk⟩).children.find?
          (fun j => (lookupAttr j "asofDate").isSome) = some j →
        ∃ s dt, lookupAttr j "asofDate" = some s ∧
          fromisoformat s = Except.ok dt ∧
          (orep.ownership_details.get ⟨k, hk2⟩).fields.lookup "as_of_date" =
            some (DVal.vdate dt)) ∧
      (∀ t : String, t ≠ "owner_id" → t ≠ "as_of_date" →
        (match (((findChildren rep.ownership "Owner").get ⟨k, hk⟩).children.filter
            (fun j => j.tag == t)).getLast? with
         | some j => ∃ v, childVal j = Except.ok v ∧
             (orep.ownership_details.get ⟨k, hk2⟩).fields.lookup t = some v
         | none =>
             (orep.ownership_details.get ⟨k, hk2⟩).fields.lookup t = none))) := by
  have hdets := get_ownership_report_ok_details h
  constructor
  · exact mapME_ok_length hdets
  · intro k hk hk2
    have hrow := mapME_ok_get hdets k hk hk2
    exact processOwner_fields hrow
      (htags _ (List.get_mem (findChildren rep.ownership "Owner") k hk))

def c4Rep : XMLReport :=
  ⟨.mk "OwnershipDetails" [] none
    [ .mk "ISIN" [] (some "US0378331005") []
    , .mk "floatShares" [("asofDate", "0")] (some "100") []
    , .mk "Owner" [("ownerId", "0x1")] none
        [ .mk "name" [] (some "Acme Fund") []
        , .mk "lastReported" [("asofDate", "2022-01-01")] none []
        , .mk "quantity" [] (some "12.5") [] ] ],
   .mk "F" [] none [], .mk "S" [] none [], .mk "R" [] none []⟩

def c4Report : OwnershipReport :=
  ⟨⟨some "US0378331005", 100, none⟩,
   [⟨[("owner_id", DVal.vstr "0x1"), ("name", DVal.vstr "Acme Fund"),
      ("as_of_date", DVal.vdate ⟨2022, 1, 1⟩), ("lastReported", DVal.vnone),
      ("quantity", DVal.vnum ⟨false, 125, 1, 0⟩)]⟩]⟩

/-- Witness for C4 on a concrete ownership tree with one owner row whose
first child carries no attribute, second child carries the date, and
third child is a `quantity`. -/
theorem ownership_rows_witness :
    get_ownership_report c4Rep = Except.ok c4Report ∧
    c4Report.ownership_details.length =
      (findChildren c4Rep.ownership "Owner").length :=
  ⟨by decide,
   (ownership_rows c4Rep c4Report (by decide) (by decide)).1⟩

/-! ### C5: ratio-snapshot typing requires the Type attribute -/

def c5NoTypeRep : XMLReport :=
  ⟨.mk "O" [] none [], .mk "F" [] none [],
   .mk "ReportSnapshot" [] none
     [ .mk "Ratios" [] none
         [ .mk "Group" [] none
             [ .mk "Ratio" [("FieldName", "PEEXCLXOR")] (some "12.5") [] ] ] ],
   .mk "R" [] none []⟩

/-- **C5 counterexample.** The claim that a `Ratio` node with an absent
`Type` attribute yields a float-typed field is false: the code reads
`r.attrib["Type"]` unconditionally, so a node carrying only `FieldName`
and a numeric text makes `get_ratios` fail with a missing-field error
(Python `KeyError`) instead of producing a float field. -/
theorem ratio_type_absent_fails :
    get_ratios c5NoTypeRep = Except.error PError.missingField := by decide

theorem lookup_updateAssoc_isSome {α : Type} (d : List (String × α))
    (k : String) (v : α) (k2 : String) (h : (d.lookup k2).isSome = true) :
    ((updateAssoc d k v).lookup k2).isSome = true := by
  by_cases hk : k2 = k
  · subst hk
    rw [lookup_updateAssoc_self]
    rfl
  · rw [lookup_updateAssoc_ne _ _ _ hk]
    exact h

theorem ratioPairs_preserve :
    ∀ {l : List Element} {acc out : List (String × RVal)},
      ratioPairs acc l = Except.ok out →
      ∀ k, (acc.lookup k).isSome = true → (out.lookup k).isSome = true := by
  intro l
  induction l with
  | nil =>
    intro acc out h k hk
    simp only [ratioPairs, Except.ok.injEq] at h
    subst h
    exact hk
  | cons r rs ih =>
    intro acc out h k hk
    simp only [ratioPairs] at h
    rw [bind_ok_iff] at h
    obtain ⟨acc1, hstep, h⟩ := h
    unfold ratioStep at hstep
    rw [bind_ok_iff] at hstep
    obtain ⟨fn, _, hstep⟩ := hstep
    rw [bind_ok_iff] at hstep
    obtain ⟨v, _, hstep⟩ := hstep
    simp only [pure_eq_ok, Except.ok.injEq] at hstep
    subst hstep
    exact ih h k (lookup_updateAssoc_isSome _ _ _ _ hk)

theorem ratioPairs_mem :
    ∀ {l : List Element} {acc out : List (String × RVal)},
      ratioPairs acc l = Except.ok out →
      ∀ r ∈ l, ∃ fn v, getAttrE r "FieldName" = Except.ok fn ∧
        ratioVal r = Except.ok v ∧
        (out.lookup (lowerStr fn)).isSome = true := by
  intro l
  induction l with
  | nil =>
    intro acc out _ r hr
    exact absurd hr (by simp)
  | cons r0 rs ih =>
    intro acc out h r hr
    simp only [ratioPairs] at h
    rw [bind_ok_iff] at h
    obtain ⟨acc1, hstep, h⟩ := h
    have hstep' := hstep
    unfold ratioStep at hstep'
    rw [bind_ok_iff] at hstep'
    obtain ⟨fn, hfn, hstep'⟩ := hstep'
    rw [bind_ok_iff] at hstep'
    obtain ⟨v, hv, hstep'⟩ := hstep'
    simp only [pure_eq_ok, Except.ok.injEq] at hstep'
    rcases List.mem_cons.mp hr with hr0 | hrs
    · subst hr0
      refine ⟨fn, v, hfn, hv, ?_⟩
      refine ratioPairs_preserve h (lowerStr fn) ?_
      rw [← hstep', lookup_updateAssoc_self]
      rfl
    · exact ih h r hrs

theorem ratioVal_ok {r : Element} {v : RVal} (h : ratioVal r = Except.ok v) :
    ∃ ty, lookupAttr r "Type" = some ty ∧
      ((ty = "D" ∧ ∃ d, v = RVal.vdate d) ∨
       (ty ≠ "D" ∧ ∃ q, v = RVal.vnum q)) := by
  unfold ratioVal at h
  cases hty : getAttrE r "Type" with
  | error e => rw [hty] at h; simp at h
  | ok ty =>
    rw [hty] at h
    simp only [ok_bind] at h
    refine ⟨ty, getAttrE_ok_iff.mp hty, ?_⟩
    by_cases hd : ty = "D"
    · rw [if_pos hd] at h
      left
      refine ⟨hd, ?_⟩
      cases htx : r.text with
      | none => rw [htx] at h; simp at h
      | some s =>
        rw [htx] at h
        rw [bind_ok_iff] at h
        obtain ⟨d, _, h⟩ := h
        simp only [pure_eq_ok, Except.ok.injEq] at h
        exact ⟨d, h.symm⟩
    · rw [if_neg hd] at h
      right
      refine ⟨hd, ?_⟩
      rw [bind_ok_iff] at h
      obtain ⟨q, _, h⟩ := h
      simp only [pure_eq_ok, Except.ok.injEq] at h
      exact ⟨q, h.symm⟩

/-- **C5 amended.** For every `Ratio` node processed by a successful
`get_ratios` run, the node carries a `FieldName` and a `Type` attribute
(an absent `Type` makes the run fail, as the counterexample shows); the
produced value is a date exactly when `Type = "D"` and a float parsed
from the node's text otherwise; and the record holds a field keyed by
the lower-cased `FieldName`. -/
theorem ratio_snapshot_fields (rep : XMLReport) (rs : RatioSnapshot)
    (h : get_ratios rep = Except.ok rs) :
    ∀ r ∈ findallDesc3 rep.snapshot "Ratios" "Group" "Ratio",
      ∃ fn ty v, lookupAttr r "FieldName" = some fn ∧
        lookupAttr r "Type" = some ty ∧ ratioVal r = Except.ok v ∧
        ((ty = "D" ∧ ∃ d, v = RVal.vdate d) ∨
         (ty ≠ "D" ∧ ∃ q, v = RVal.vnum q)) ∧
        (rs.fields.lookup (lowerStr fn)).isSome = true := by
  have hpairs : ratioPairs [] (findallDesc3 rep.snapshot "Ratios" "Group" "Ratio") =
      Except.ok rs.fields := by
    unfold get_ratios at h
    rw [bind_ok_iff] at h
    obtain ⟨pairs, hp, h⟩ := h
    simp only [pure_eq_ok, Except.ok.injEq] at h
    rw [← h]
    exact hp
  intro r hr
  obtain ⟨fn, v, hfn, hv, hlook⟩ := ratioPairs_mem hpairs r hr
  obtain ⟨ty, hty, hcases⟩ := ratioVal_ok hv
  exact ⟨fn, ty, v, getAttrE_ok_iff.mp hfn, hty, hv, hcases, hlook⟩

def c5GoodRep : XMLReport :=
  ⟨.mk "O" [] none [], .mk "F" [] none [],
   .mk "ReportSnapshot" [] none
     [ .mk "Ratios" [] none
         [ .mk "Group" [] none
             [ .mk "Ratio" [("FieldName", "LATESTADATE"), ("Type", "D")]
                 (some "2021-12-31") []
             , .mk "Ratio" [("FieldName", "PEEXCLXOR"), ("Type", "N")]
                 (some "12.5") [] ] ] ],
   .mk "R" [] none []⟩

def c5GoodSnap : RatioSnapshot :=
  ⟨[("latestadate", RVal.vdate ⟨2021, 12, 31⟩),
    ("peexclxor", RVal.vnum ⟨false, 125, 1, 0⟩)]⟩

/-- Witness for the amended C5 statement on a concrete snapshot with one
date-typed and one number-typed ratio node. -/
theorem ratio_snapshot_fields_witness :
    get_ratios c5GoodRep = Except.ok c5GoodSnap ∧
    (∀ r ∈ findallDesc3 c5GoodRep.snapshot "Ratios" "Group" "Ratio",
      ∃ fn ty v, lookupAttr r "FieldName" = some fn ∧
        lookupAttr r "Type" = some ty ∧ ratioVal r = Except.ok v ∧
        ((ty = "D" ∧ ∃ d, v = RVal.vdate d) ∨
         (ty ≠ "D" ∧ ∃ q, v = RVal.vnum q)) ∧
        (c5GoodSnap.fields.lookup (lowerStr fn)).isSome = true) :=
  ⟨by decide, ratio_snapshot_fields c5GoodRep c5GoodSnap (by decide)⟩

/-! ### C6: analyst-forecast record construction -/

theorem afPairs_preserve :
    ∀ {l : List Element} {acc out : List (String × PyFloat)},
      afPairs acc l = Except.ok out →
      ∀ k, (acc.lookup k).isSome = true → (out.lookup k).isSome = true := by
  intro l
  induction l with
  | nil =>
    intro acc out h k hk
    simp only [afPairs, Except.ok.injEq] at h
    subst h
    exact hk
  | cons g gs ih =>
    intro acc out h k hk
    simp only [afPairs] at h
    rw [bind_ok_iff] at h
    obtain ⟨acc1, hstep, h⟩ := h
    unfold afStep at hstep
    rw [bind_ok_iff] at hstep
    obtain ⟨fn, _, hstep⟩ := hstep
    rw [bind_ok_iff] at hstep
    obtain ⟨vn, _, hstep⟩ := hstep
    rw [bind_ok_iff] at hstep
    obtain ⟨q, _, hstep⟩ := hstep
    simp only [pure_eq_ok, Except.ok.injEq] at hstep
    subst hstep
    exact ih h k (lookup_updateAssoc_isSome _ _ _ _ hk)

theorem afPairs_mem :
    ∀ {l : List Element} {acc out : List (String × PyFloat)},
      afPairs acc l = Except.ok out →
      ∀ g ∈ l, ∃ fn vnode q, getAttrE g "FieldName" = Except.ok fn ∧
        firstValueChild g = Except.ok vnode ∧
        pyFloatText vnode.text = Except.ok q ∧
        (out.lookup (camel_to_snake fn)).isSome = true := by
  intro l
  induction l with
  | nil =>
    intro acc out _ g hg
    exact absurd hg (by simp)
  | cons g0 gs ih =>
    intro acc out h g hg
    simp only [afPairs] at h
    rw [bind_ok_iff] at h
    obtain ⟨acc1, hstep, h⟩ := h
    have hstep' := hstep
    unfold afStep at hstep'
    rw [bind_ok_iff] at hstep'
    obtain ⟨fn, hfn, hstep'⟩ := hstep'
    rw [bind_ok_iff] at hstep'
    obtain ⟨vn, hvn, hstep'⟩ := hstep'
    rw [bind_ok_iff] at hstep'
    obtain ⟨q, hq, hstep'⟩ := hstep'
    simp only [pure_eq_ok, Except.ok.injEq] at hstep'
    rcases List.mem_cons.mp hg with hg0 | hgs
    · subst hg0
      refine ⟨fn, vn, q, hfn, hvn, hq, ?_⟩
      refine afPairs_preserve h (camel_to_snake fn) ?_
      rw [← hstep', lookup_updateAssoc_self]
      rfl
    · exact ih h g hgs

theorem afPairs_source :
    ∀ {l : List Element} {acc out : List (String × PyFloat)},
      afPairs acc l = Except.ok out →
      ∀ k val, out.lookup k = some val →
        (acc.lookup k = some val) ∨
        ∃ g ∈ l, ∃ fn, getAttrE g "FieldName" = Except.ok fn ∧
          camel_to_snake fn = k ∧
          ∃ vn, firstValueChild g = Except.ok vn ∧
            pyFloatText vn.text = Except.ok val := by
  intro l
  induction l with
  | nil =>
    intro acc out h k val hk
    simp only [afPairs, Except.ok.injEq] at h
    subst h
    exact Or.inl hk
  | cons g0 gs ih =>
    intro acc out h k val hk
    simp only [afPairs] at h
    rw [bind_ok_iff] at h
    obtain ⟨acc1, hstep, h⟩ := h
    unfold afStep at hstep
    rw [bind_ok_iff] at hstep
    obtain ⟨fn, hfn, hstep⟩ := hstep
    rw [bind_ok_iff] at hstep
    obtain ⟨vn, hvn, hstep⟩ := hstep
    rw [bind_ok_iff] at hstep
    obtain ⟨q, hq, hstep⟩ := hstep
    simp only [pure_eq_ok, Except.ok.injEq] at hstep
    rcases ih h k val hk with hacc1 | ⟨g, hg, rest⟩
    · by_cases hkk : k = camel_to_snake fn
      · subst hkk
        rw [← hstep, lookup_updateAssoc_self] at hacc1
        have : q = val := by simpa using hacc1
        subst this
        exact Or.inr ⟨g0, by simp, fn, hfn, rfl, vn, hvn, hq⟩
      · rw [← hstep, lookup_updateAssoc_ne _ _ _ hkk] at hacc1
        exact Or.inl hacc1
    · exact Or.inr ⟨g, List.mem_cons_of_mem _ hg, rest⟩

theorem afPairs_missing_value :
    ∀ {l : List Element} {acc : List (String × PyFloat)},
      (∀ g ∈ l, (∃ fn, getAttrE g "FieldName" = Except.ok fn) ∧
        (∀ vn, firstValueChild g = Except.ok vn →
          ∃ q, pyFloatText vn.text = Except.ok q)) →
      (∃ g ∈ l, findChildren g "Value" = []) →
      afPairs acc l = Except.error PError.missingField := by
  intro l
  induction l with
  | nil =>
    intro acc _ hex
    obtain ⟨g, hg, _⟩ := hex
    exact absurd hg (by simp)
  | cons g0 gs ih =>
    intro acc hall hex
    have hg0 := hall g0 (by simp)
    obtain ⟨fn, hfn⟩ := hg0.1
    by_cases hval : findChildren g0 "Value" = []
    · simp only [afPairs]
      unfold afStep
      rw [hfn]
      simp only [ok_bind]
      rw [show firstValueChild g0 = Except.error PError.missingField by
        unfold firstValueChild
        rw [hval]]
      simp
    · obtain ⟨vnode, hvnode⟩ : ∃ vn, firstValueChild g0 = Except.ok vn := by
        unfold firstValueChild
        cases hh : findChildren g0 "Value" with
        | nil => exact absurd hh hval
        | cons a as => exact ⟨a, rfl⟩
      obtain ⟨q, hq⟩ := hg0.2 vnode hvnode
      simp only [afPairs]
      unfold afStep
      rw [hfn]
      simp only [ok_bind]
      rw [hvnode]
      simp only [ok_bind]
      rw [hq]
      simp only [ok_bind, pure_eq_ok]
      refine ih (fun g hg => hall g (List.mem_cons_of_mem _ hg)) ?_
      obtain ⟨g, hg, hgv⟩ := hex
      rcases List.mem_cons.mp hg with hgg | hgg
      · subst hgg
        exact absurd hgv hval
      · exact ⟨g, hgg, hgv⟩

/-- **C6.** `get_analyst_forecast` builds exactly one record whose fields
are the normalized (`camel_to_snake`) forms of the `Ratio` nodes'
`FieldName` attributes mapped to the float values of their nested value
nodes — on success every node contributes a field under its normalized
name, and every field of the record originates from such a node — and it
fails with the missing-field error whenever some `Ratio` node has no
nested `Value` child (provided no earlier coercion failure preempts it). -/
theorem analyst_forecast_record (rep : XMLReport) (af : AnalystForecast) :
    (get_analyst_forecast rep = Except.ok af →
      (∀ g ∈ findallDesc2 rep.snapshot "ForecastData" "Ratio",
        ∃ fn vnode q, getAttrE g "FieldName" = Except.ok fn ∧
          firstValueChild g = Except.ok vnode ∧
          pyFloatText vnode.text = Except.ok q ∧
          (af.fields.lookup (camel_to_snake fn)).isSome = true) ∧
      (∀ k val, af.fields.lookup k = some val →
        ∃ g ∈ findallDesc2 rep.snapshot "ForecastData" "Ratio",
          ∃ fn, getAttrE g "FieldName" = Except.ok fn ∧
            camel_to_snake fn = k ∧
            ∃ vn, firstValueChild g = Except.ok vn ∧
              pyFloatText vn.text = Except.ok val)) ∧
    ((∀ g ∈ findallDesc2 rep.snapshot "ForecastData" "Ratio",
        (∃ fn, getAttrE g "FieldName" = Except.ok fn) ∧
        (∀ vn, firstValueChild g = Except.ok vn →
          ∃ q, pyFloatText vn.text = Except.ok q)) →
      (∃ g ∈ findallDesc2 rep.snapshot "ForecastData" "Ratio",
        findChildren g "Value" = []) →
      get_analyst_forecast rep = Except.error PError.missingField) := by
  constructor
  · intro h
    have hpairs : afPairs [] (findallDesc2 rep.snapshot "ForecastData" "Ratio") =
        Except.ok af.fields := by
      unfold get_analyst_forecast at h
      rw [bind_ok_iff] at h
      obtain ⟨pairs, hp, h⟩ := h
      simp only [pure_eq_ok, Except.ok.injEq] at h
      rw [← h]
      exact hp
    constructor
    · exact afPairs_mem hpairs
    · intro k val hk
      rcases afPairs_source hpairs k val hk with hnil | hsrc
      · simp [List.lookup] at hnil
      · exact hsrc
  · intro hall hex
    show (do
      let pairs ← afPairs [] (findallDesc2 rep.snapshot "ForecastData" "Ratio")
      pure (AnalystForecast.mk pairs) : Except PError AnalystForecast) =
        Except.error PError.missingField
    rw [afPairs_missing_value hall hex]
    simp

def c6GoodRep : XMLReport :=
  ⟨.mk "O" [] none [], .mk "F" [] none [],
   .mk "ReportSnapshot" [] none
     [ .mk "ForecastData" [] none
         [ .mk "Ratio" [("FieldName", "ConsRecom")] none
             [ .mk "Value" [] (some "1.9") [] ]
         , .mk "Ratio" [("FieldName", "TargetPrice")] none
             [ .mk "Value" [] (some "150.5") [] ] ] ],
   .mk "R" [] none []⟩

def c6BadRep : XMLReport :=
  ⟨.mk "O" [] none [], .mk "F" [] none [],
   .mk "ReportSnapshot" [] none
     [ .mk "ForecastData" [] none
         [ .mk "Ratio" [("FieldName", "ConsRecom")] none [] ] ],
   .mk "R" [] none []⟩

def c6Forecast : AnalystForecast :=
  ⟨[("cons_recom", ⟨false, 19, 1, 0⟩), ("target_price", ⟨false, 1505, 1, 0⟩)]⟩

/-- Witness for C6: the success shape on a concrete forecast section and
the missing-field failure on a node without a `Value` child. -/
theorem analyst_forecast_record_witness :
    get_analyst_forecast c6GoodRep = Except.ok c6Forecast ∧
    (∀ g ∈ findallDesc2 c6GoodRep.snapshot "ForecastData" "Ratio",
      ∃ fn vnode q, getAttrE g "FieldName" = Except.ok fn ∧
        firstValueChild g = Except.ok vnode ∧
        pyFloatText vnode.text = Except.ok q ∧
        (c6Forecast.fields.lookup (camel_to_snake fn)).isSome = true) ∧
    get_analyst_forecast c6BadRep = Except.error PError.missingField :=
  ⟨by decide,
   ((analyst_forecast_record c6GoodRep c6Forecast).1 (by decide)).1,
   (analyst_forecast_record c6BadRep c6Forecast).2
     (by
       intro g hg
       rw [show findallDesc2 c6BadRep.snapshot "ForecastData" "Ratio" =
             [Element.mk "Ratio" [("FieldName", "ConsRecom")] none []] from rfl] at hg
       have hgeq := List.mem_singleton.mp hg
       subst hgeq
       refine ⟨⟨"ConsRecom", by decide⟩, ?_⟩
       intro vn hvn
       rw [show firstValueChild (Element.mk "Ratio" [("FieldName", "ConsRecom")] none []) =
             Except.error PError.missingField from rfl] at hvn
       exact Except.noConfusion hvn)
     (by decide)⟩

/-! ### C7: forward-year estimate and actual traversals -/

/-- The `(item, fiscal-period, leaf)` combinations of the estimate
traversal, in document order. -/
def estTriples (resc : Element) : List (Element × Element × Element) :=
  (resc.iterTag "FYEstimate").flatMap (fun a =>
    (a.iterTag "FYPeriod").flatMap (fun p =>
      (p.iterTag "ConsEstimate").map (fun e => (a, p, e))))

/-- The `(item, fiscal-period)` combinations of the actual traversal, in
document order; the leaf of each is the period's first child. -/
def actPairs (resc : Element) : List (Element × Element) :=
  (resc.iterTag "FYActual").flatMap (fun a =>
    (a.iterTag "FYPeriod").map (fun p => (a, p)))

theorem get_fy_estimates_eq (rep : XMLReport) :
    get_fy_estimates rep =
      mapME (fun t : Element × Element × Element => mkEstimate t.1 t.2.1 t.2.2)
        (estTriples rep.resc) := by
  unfold get_fy_estimates estTriples
  rw [← concatMapM_mapME]
  congr 1
  funext a
  rw [← concatMapM_mapME]
  congr 1
  funext p
  rw [mapME_map]

theorem get_fy_actuals_eq (rep : XMLReport) :
    get_fy_actuals rep =
      mapME (fun t : Element × Element => mkActual t.1 t.2)
        (actPairs rep.resc) := by
  unfold get_fy_actuals actPairs
  rw [← concatMapM_mapME]
  congr 1
  funext a
  rw [mapME_map]

theorem mkEstimate_ok {a p e : Element} {fy : ForwardYear}
    (h : mkEstimate a p e = Except.ok fy) :
    fy.type = "Estimate" ∧
    (∃ it, lookupAttr a "type" = some it ∧ fy.item = it) ∧
    (∃ pt, lookupAttr p "periodType" = some pt ∧ fy.period_type = pt) ∧
    (∃ e0, firstChildE e = Except.ok e0 ∧
      ∃ q, pyFloatText e0.text = Except.ok q ∧ fy.value = q) ∧
    (∃ et, lookupAttr e "type" = some et ∧ fy.est_type = some et) ∧
    fy.updated = none := by
  unfold mkEstimate at h
  rw [bind_ok_iff] at h
  obtain ⟨it, hit, h⟩ := h
  rw [bind_ok_iff] at h
  obtain ⟨un, hun, h⟩ := h
  rw [bind_ok_iff] at h
  obtain ⟨pt, hpt, h⟩ := h
  rw [bind_ok_iff] at h
  obtain ⟨fys, hfys, h⟩ := h
  rw [bind_ok_iff] at h
  obtain ⟨fyear, hfy, h⟩ := h
  rw [bind_ok_iff] at h
  obtain ⟨ems, hems, h⟩ := h
  rw [bind_ok_iff] at h
  obtain ⟨em, hem, h⟩ := h
  rw [bind_ok_iff] at h
  obtain ⟨ecs, hecs, h⟩ := h
  rw [bind_ok_iff] at h
  obtain ⟨ec, hec, h⟩ := h
  rw [bind_ok_iff] at h
  obtain ⟨e0, he0, h⟩ := h
  rw [bind_ok_iff] at h
  obtain ⟨q, hq, h⟩ := h
  rw [bind_ok_iff] at h
  obtain ⟨et, het, h⟩ := h
  simp only [pure_eq_ok, Except.ok.injEq] at h
  subst h
  exact ⟨rfl, ⟨it, getAttrE_ok_iff.mp hit, rfl⟩,
    ⟨pt, getAttrE_ok_iff.mp hpt, rfl⟩,
    ⟨e0, he0, q, hq, rfl⟩, ⟨et, getAttrE_ok_iff.mp het, rfl⟩, rfl⟩

theorem mkActual_ok {a p : Element} {fy : ForwardYear}
    (h : mkActual a p = Except.ok fy) :
    fy.type = "Actual" ∧
    (∃ it, lookupAttr a "type" = some it ∧ fy.item = it) ∧
    (∃ pt, lookupAttr p "periodType" = some pt ∧ fy.period_type = pt) ∧
    (∃ p0, firstChildE p = Except.ok p0 ∧
      (∃ q, pyFloatText p0.text = Except.ok q ∧ fy.value = q) ∧
      (∃ us ud, lookupAttr p0 "updated" = some us ∧
        pdToDatetime us = Except.ok ud ∧ fy.updated = some ud)) ∧
    fy.est_type = none := by
  unfold mkActual at h
  rw [bind_ok_iff] at h
  obtain ⟨it, hit, h⟩ := h
  rw [bind_ok_iff] at h
  obtain ⟨un, hun, h⟩ := h
  rw [bind_ok_iff] at h
  obtain ⟨pt, hpt, h⟩ := h
  rw [bind_ok_iff] at h
  obtain ⟨fys, hfys, h⟩ := h
  rw [bind_ok_iff] at h
  obtain ⟨fyear, hfy, h⟩ := h
  rw [bind_ok_iff] at h
  obtain ⟨ems, hems, h⟩ := h
  rw [bind_ok_iff] at h
  obtain ⟨em, hem, h⟩ := h
  rw [bind_ok_iff] at h
  obtain ⟨ecs, hecs, h⟩ := h
  rw [bind_ok_iff] at h
  obtain ⟨ec, hec, h⟩ := h
  rw [bind_ok_iff] at h
  obtain ⟨p0, hp0, h⟩ := h
  rw [bind_ok_iff] at h
  obtain ⟨q, hq, h⟩ := h
  rw [bind_ok_iff] at h
  obtain ⟨us, hus, h⟩ := h
  rw [bind_ok_iff] at h
  obtain ⟨ud, hud, h⟩ := h
  simp only [pure_eq_ok, Except.ok.injEq] at h
  subst h
  exact ⟨rfl, ⟨it, getAttrE_ok_iff.mp hit, rfl⟩,
    ⟨pt, getAttrE_ok_iff.mp hpt, rfl⟩,
    ⟨p0, hp0, ⟨q, hq, rfl⟩, ⟨us, ud, getAttrE_ok_iff.mp hus, hud, rfl⟩⟩, rfl⟩

/-- **C7.** `get_fy_estimates` and `get_fy_actuals` perform the
three-level (respectively two-level-plus-first-child) traversal yielding
exactly one `ForwardYear` record per `(item, fiscal-period, leaf)`
combination in document order with no deduplication; for estimates each
`ConsEstimate` leaf contributes its first nested value together with its
`type` (est_type) discriminant, and for actuals the leaf is the period's
first child value carrying an `updated` timestamp. -/
theorem forward_year_traversal (rep : XMLReport) :
    (get_fy_estimates rep =
      mapME (fun t : Element × Element × Element => mkEstimate t.1 t.2.1 t.2.2)
        (estTriples rep.resc)) ∧
    (get_fy_actuals rep =
      mapME (fun t : Element × Element => mkActual t.1 t.2) (actPairs rep.resc)) ∧
    (∀ l, get_fy_estimates rep = Except.ok l →
      l.length = (estTriples rep.resc).length) ∧
    (∀ l, get_fy_actuals rep = Except.ok l →
      l.length = (actPairs rep.resc).length) ∧
    (∀ a p e fy, mkEstimate a p e = Except.ok fy →
      fy.type = "Estimate" ∧
      (∃ it, lookupAttr a "type" = some it ∧ fy.item = it) ∧
      (∃ pt, lookupAttr p "periodType" = some pt ∧ fy.period_type = pt) ∧
      (∃ e0, firstChildE e = Except.ok e0 ∧
        ∃ q, pyFloatText e0.text = Except.ok q ∧ fy.value = q) ∧
      (∃ et, lookupAttr e "type" = some et ∧ fy.est_type = some et) ∧
      fy.updated = none) ∧
    (∀ a p fy, mkActual a p = Except.ok fy →
      fy.type = "Actual" ∧
      (∃ it, lookupAttr a "type" = some it ∧ fy.item = it) ∧
      (∃ pt, lookupAttr p "periodType" = some pt ∧ fy.period_type = pt) ∧
      (∃ p0, firstChildE p = Except.ok p0 ∧
        (∃ q, pyFloatText p0.text = Except.ok q ∧ fy.value = q) ∧
        (∃ us ud, lookupAttr p0 "updated" = some us ∧
          pdToDatetime us = Except.ok ud ∧ fy.updated = some ud)) ∧
      fy.est_type = none) := by
  refine ⟨get_fy_estimates_eq rep, get_fy_actuals_eq rep, ?_, ?_,
    fun a p e fy h => mkEstimate_ok h, fun a p fy h => mkActual_ok h⟩
  · intro l hl
    rw [get_fy_estimates_eq rep] at hl
    exact mapME_ok_length hl
  · intro l hl
    rw [get_fy_actuals_eq rep] at hl
    exact mapME_ok_length hl

def c7EstPeriod : Element :=
  .mk "FYPeriod"
    [("periodType", "A"), ("fYear", "2024"), ("endMonth", "12"),
     ("endCalYear", "2024")] none
    [ .mk "ConsEstimate" [("type", "High")] none
        [ .mk "ConsValue" [("dateType", "CURR")] (some "6.5") [] ]
    , .mk "ConsEstimate" [("type", "Low")] none
        [ .mk "ConsValue" [("dateType", "CURR")] (some "5.5") [] ] ]

def c7EstItem : Element :=
  .mk "FYEstimate" [("type", "EPS"), ("unit", "U")] none [c7EstPeriod]

def c7ActPeriod : Element :=
  .mk "FYPeriod"
    [("periodType", "A"), ("fYear", "2023"), ("endMonth", "12"),
     ("endCalYear", "2023")] none
    [ .mk "ActValue" [("updated", "2024-01-15")] (some "6.1") [] ]

def c7ActItem : Element :=
  .mk "FYActual" [("type", "EPS"), ("unit", "U")] none [c7ActPeriod]

def c7Rep : XMLReport :=
  ⟨.mk "O" [] none [], .mk "F" [] none [], .mk "S" [] none [],
   .mk "RESC" [] none [c7ActItem, c7EstItem]⟩

def c7EstList : List ForwardYear :=
  [⟨"Estimate", "EPS", "U", "A", 2024, 12, 2024, ⟨false, 65, 1, 0⟩,
    some "High", none⟩,
   ⟨"Estimate", "EPS", "U", "A", 2024, 12, 2024, ⟨false, 55, 1, 0⟩,
    some "Low", none⟩]

/-- Witness for C7: on a concrete tree one record per combination is
produced — two estimate records for the two `ConsEstimate` leaves of the
same (item, period) pair, in document order — and the record count
equals the combination count. -/
theorem forward_year_traversal_witness :
    get_fy_estimates c7Rep = Except.ok c7EstList ∧
    c7EstList.length = (estTriples c7Rep.resc).length ∧
    (∀ l, get_fy_actuals c7Rep = Except.ok l →
      l.length = (actPairs c7Rep.resc).length) :=
  ⟨by decide,
   (forward_year_traversal c7Rep).2.2.1 c7EstList (by decide),
   (forward_year_traversal c7Rep).2.2.2.1⟩

/-! ### C9 and C10: the ownership memoization cache -/

/-- Every cached entry holds the report obtained by running the
extraction on its own instance's bundle. -/
def cacheCoherent (st : OwnCache) : Prop :=
  ∀ e ∈ st.entries, get_ownership_report e.1.report = Except.ok e.2

theorem cacheLookup_coherent {st : OwnCache} {p : ParserInst}
    {r : OwnershipReport} (hC : cacheCoherent st)
    (h : cacheLookup st p = some r) :
    get_ownership_report p.report = Except.ok r := by
  unfold cacheLookup at h
  cases hf : st.entries.find? (fun e => decide (e.1 = p)) with
  | none => rw [hf] at h; simp at h
  | some e =>
    rw [hf] at h
    simp only [Option.map] at h
    have hmem := List.mem_of_find?_eq_some hf
    have hkey : e.1 = p := by simpa using List.find?_some hf
    have hthis := hC e hmem
    rw [hkey] at hthis
    have he2 : e.2 = r := by simpa using h
    rw [← he2]
    exact hthis

theorem length_filter_lt {α : Type} (q : α → Bool) :
    ∀ (l : List α) (x : α), x ∈ l → q x = false →
      (l.filter q).length < l.length := by
  intro l
  induction l with
  | nil => intro x hx; exact absurd hx (by simp)
  | cons a as ih =>
    intro x hx hqx
    rcases List.mem_cons.mp hx with hax | hx2
    · subst hax
      rw [List.filter_cons_of_neg (by simp [hqx])]
      have := List.length_filter_le q as
      simp only [List.length_cons]
      omega
    · by_cases hqa : q a = true
      · rw [List.filter_cons_of_pos hqa]
        have := ih x hx2 hqx
        simp only [List.length_cons]
        omega
      · rw [List.filter_cons_of_neg (by simpa using hqa)]
        have := List.length_filter_le q as
        simp only [List.length_cons]
        omega

theorem cachedOwnership_ok {st : OwnCache} {p : ParserInst}
    {r : OwnershipReport} {st' : OwnCache} (hC : cacheCoherent st)
    (h : cachedOwnershipReport st p = Except.ok (r, st')) :
    get_ownership_report p.report = Except.ok r ∧ cacheCoherent st' ∧
    cacheLookup st' p = some r ∧
    (st.entries.length ≤ 4 → st'.entries.length ≤ 4) := by
  unfold cachedOwnershipReport at h
  cases hl : cacheLookup st p with
  | some r0 =>
    rw [hl] at h
    simp only [Except.ok.injEq, Prod.mk.injEq] at h
    obtain ⟨hr, hst⟩ := h
    subst hr
    have hget := cacheLookup_coherent hC hl
    refine ⟨hget, ?_, ?_, ?_⟩
    · intro e he
      rw [← hst] at he
      simp only [List.mem_cons] at he
      rcases he with he | he
      · subst he
        exact hget
      · exact hC e (List.mem_of_mem_filter he)
    · rw [← hst]
      unfold cacheLookup
      rw [List.find?_cons_of_pos _ (by simp)]
      rfl
    · intro hlen
      rw [← hst]
      simp only [List.length_cons]
      obtain ⟨e, hmem, hkey⟩ : ∃ e ∈ st.entries, e.1 = p := by
        unfold cacheLookup at hl
        cases hf : st.entries.find? (fun e => decide (e.1 = p)) with
        | none => rw [hf] at hl; simp at hl
        | some e =>
          exact ⟨e, List.mem_of_find?_eq_some hf,
            by simpa using List.find?_some hf⟩
      have hq : (fun e : ParserInst × OwnershipReport =>
          decide ¬ (e.1 = p)) e = false := by simp [hkey]
      have hlt := length_filter_lt
        (fun e : ParserInst × OwnershipReport => decide ¬ (e.1 = p))
        st.entries e hmem hq
      omega
  | none =>
    rw [hl] at h
    rw [bind_ok_iff] at h
    obtain ⟨r0, hr0, h⟩ := h
    simp only [Except.ok.injEq, Prod.mk.injEq] at h
    obtain ⟨hr, hst⟩ := h
    subst hr
    refine ⟨hr0, ?_, ?_, ?_⟩
    · intro e he
      rw [← hst] at he
      have : e ∈ (p, r0) :: st.entries := List.mem_of_mem_take he
      simp only [List.mem_cons] at this
      rcases this with he0 | he0
      · subst he0
        exact hr0
      · exact hC e he0
    · rw [← hst]
      unfold cacheLookup
      rw [show ((p, r0) :: st.entries).take 4 = (p, r0) :: st.entries.take 3 from rfl]
      rw [List.find?_cons_of_pos _ (by simp)]
      rfl
    · intro _
      rw [← hst]
      rw [List.length_take]
      exact Nat.min_le_left 4 _

/-- **C9.** For every parser instance, two successive calls to the
memoized `get_ownership_report` return record sets that compare equal:
the second call is a cache hit returning the exact previously stored
record set, and both results equal re-running the extraction over the
(immutable) bundle, so the memoized path is observably equivalent to the
uncached extraction. -/
theorem memoized_ownership_consistent (st : OwnCache) (p : ParserInst)
    (r1 r2 : OwnershipReport) (st1 st2 : OwnCache)
    (hC : cacheCoherent st)
    (h1 : cachedOwnershipReport st p = Except.ok (r1, st1))
    (h2 : cachedOwnershipReport st1 p = Except.ok (r2, st2)) :
    r2 = r1 ∧ get_ownership_report p.report = Except.ok r1 ∧
    cacheLookup st1 p = some r1 ∧ cacheCoherent st1 := by
  obtain ⟨hget, hC1, hlook1, _⟩ := cachedOwnership_ok hC h1
  obtain ⟨hget2, _, _, _⟩ := cachedOwnership_ok hC1 h2
  refine ⟨?_, hget, hlook1, hC1⟩
  rw [hget] at hget2
  exact (Except.ok.inj hget2).symm

def c9Bundle : XMLReport :=
  ⟨.mk "OwnershipDetails" [] none
    [ .mk "ISIN" [] (some "US0378331005") []
    , .mk "floatShares" [("asofDate", "0")] (some "7") [] ],
   .mk "F" [] none [], .mk "S" [] none [], .mk "R" [] none []⟩

def c9P : ParserInst := ⟨1, c9Bundle⟩

def c9R : OwnershipReport := ⟨⟨some "US0378331005", 7, none⟩, []⟩

def c9St1 : OwnCache := ⟨[(c9P, c9R)]⟩

/-- Witness for C9 on a concrete instance starting from an empty cache. -/
theorem memoized_ownership_consistent_witness :
    c9R = c9R ∧ get_ownership_report c9P.report = Except.ok c9R ∧
    cacheLookup c9St1 c9P = some c9R ∧ cacheCoherent c9St1 :=
  memoized_ownership_consistent ⟨[]⟩ c9P c9R c9R c9St1 c9St1
    (fun e he => absurd he (by simp))
    (by decide) (by decide)

/-! ### C10: the cache is shared across parser instances -/

def c10P (n : Nat) : ParserInst := ⟨n, c9Bundle⟩

def lruStep (st : OwnCache) (p : ParserInst) : Except PError OwnCache :=
  (cachedOwnershipReport st p).map (fun pr => pr.2)

def c10After4 : Except PError OwnCache := do
  let s1 ← lruStep ⟨[]⟩ (c10P 1)
  let s2 ← lruStep s1 (c10P 2)
  let s3 ← lruStep s2 (c10P 3)
  let s4 ← lruStep s3 (c10P 4)
  pure s4

def c10After5 : Except PError OwnCache := do
  let s4 ← c10After4
  lruStep s4 (c10P 5)

/-- **C10 counterexample.** The memoization cache is not scoped to a
single parser instance: after instance 1 caches its report, extractions
performed through four other instances of the class evict instance 1's
entry from the shared capacity-4 LRU cache — instance 1's result is
still cached after three foreign extractions and gone after the
fourth. -/
theorem ownership_cache_shared_eviction :
    c10After4.map (fun st => (cacheLookup st (c10P 1)).isSome) =
      Except.ok true ∧
    c10After5.map (fun st => (cacheLookup st (c10P 1)).isSome) =
      Except.ok false := by
  constructor <;> decide

/-- **C10 amended.** The ownership memoization cache is a single
structure shared by all parser instances of the class, keyed by instance
identity, holding up to 4 entries with least-recently-used eviction:
any successful call returns the report extracted from the calling
instance's own bundle (entries are never mixed across instances), the
resulting cache stays coherent and within capacity 4, and the calling
instance's entry becomes the most recent — but, as the counterexample
shows, extractions through one instance can evict cached results of
another. -/
theorem ownership_cache_amended (st : OwnCache) (p : ParserInst)
    (r : OwnershipReport) (st' : OwnCache)
    (hC : cacheCoherent st)
    (h : cachedOwnershipReport st p = Except.ok (r, st')) :
    get_ownership_report p.report = Except.ok r ∧ cacheCoherent st' ∧
    cacheLookup st' p = some r ∧
    (st.entries.length ≤ 4 → st'.entries.length ≤ 4) :=
  cachedOwnership_ok hC h

def c10St1 : OwnCache := ⟨[(c10P 1, c9R)]⟩

/-- Witness for the amended C10 statement: the first call through
instance 1 on the empty cache. -/
theorem ownership_cache_amended_witness :
    get_ownership_report (c10P 1).report = Except.ok c9R ∧
    cacheCoherent c10St1 ∧
    cacheLookup c10St1 (c10P 1) = some c9R ∧
    ((⟨[]⟩ : OwnCache).entries.length ≤ 4 → c10St1.entries.length ≤ 4) :=
  ownership_cache_amended ⟨[]⟩ (c10P 1) c9R c10St1
    (fun e he => absurd he (by simp))
    (by decide)

end IBFund
